import Mathlib

/-!
# Verification of the caching-service core

A shallow embedding, in Lean 4, of the core of the `caching-service`
repository: the pure transformer (`src/libintegration/domain/apps/transformer.py`),
the content hasher (`src/libintegration/domain/utils/caching_utils.py`), the
cache controller (`src/libintegration/domain/controllers/cache_controller.py`)
and the router-level in-memory fast-path registries
(`src/libintegration/domain/routers/caches.py`).

Python strings are modelled as `List Char` (Unicode scalar values); machine
integers do not occur in the modelled code.  Fallible Python code (raising
`ValueError` / `HTTPException`) is modelled with `Except`.  The stateful parts
(the two module-level in-memory registries and the database table) are modelled
by explicit state passing over a `SysState` record.
-/

/-- Python strings, as lists of Unicode scalar values. -/
abbrev Str := List Char

/-! ## Python string primitives

`str.strip()` / `str.split()` (no arguments) operate on Python's notion of
whitespace: exactly the characters for which `str.isspace()` holds. -/

/-- The set of characters Python's `str.isspace()` accepts (and hence the
separator set of `str.split()` and the strip set of `str.strip()`):
the ASCII whitespace range 0x09–0x0D, the file/group/record/unit separators
0x1C–0x1F, space, NEL, NBSP, and the Unicode space separators. -/
def pyIsSpace (c : Char) : Bool :=
  let n := c.toNat
  decide ((0x09 ≤ n ∧ n ≤ 0x0D) ∨ n = 0x20 ∨ (0x1C ≤ n ∧ n ≤ 0x1F) ∨ n = 0x85 ∨ n = 0xA0 ∨
    n = 0x1680 ∨ (0x2000 ≤ n ∧ n ≤ 0x200A) ∨ n = 0x2028 ∨ n = 0x2029 ∨ n = 0x202F ∨
    n = 0x205F ∨ n = 0x3000)

/-- Python `s.strip()`: remove leading and trailing whitespace. -/
def pyStrip (s : Str) : Str :=
  ((s.dropWhile pyIsSpace).reverse.dropWhile pyIsSpace).reverse

/-- Helper for `pySplit`: scan the string, accumulating the current word
(in reverse) in `acc`; whitespace ends the current word. -/
def pySplitAux : Str → Str → List Str
  | [], acc => if acc.isEmpty then [] else [acc.reverse]
  | c :: cs, acc =>
      if pyIsSpace c then
        if acc.isEmpty then pySplitAux cs [] else acc.reverse :: pySplitAux cs []
      else pySplitAux cs (c :: acc)

/-- Python `s.split()` (no separator argument): split on runs of whitespace,
discarding empty fields. -/
def pySplit (s : Str) : List Str := pySplitAux s []

/-- Does `s` start with `pat`?  (Python `s.startswith(pat)`, used to model
substring containment.) -/
def beginsWith : Str → Str → Bool
  | [], _ => true
  | _ :: _, [] => false
  | p :: ps, c :: cs => p = c && beginsWith ps cs

/-- Python's substring containment `pat in s`. -/
def containsSub (pat : Str) : Str → Bool
  | [] => pat.isEmpty
  | c :: cs => beginsWith pat (c :: cs) || containsSub pat cs

/-- Python `sep.join(ws)`. -/
def joinSep (sep : Str) : List Str → Str
  | [] => []
  | [w] => w
  | w :: ws => w ++ sep ++ joinSep sep ws

/-- Python's `str.upper()` on a single character.  Python uses the full
Unicode uppercase mapping, under which some characters expand to several
characters; the expanding mapping relevant here is U+00DF (ß) → "SS".
Other characters are mapped by the simple (ASCII) uppercase map. -/
def pyUpperChar (c : Char) : Str :=
  if c = 'ß' then ['S', 'S'] else [c.toUpper]

/-- Python `s.upper()`. -/
def pyUpper (s : Str) : Str := (s.map pyUpperChar).flatten

/-! ## The transformer (`TransformerApp`, transformer.py) -/

namespace TransformerApp

/-- `MAX_ITEMS` (transformer.py). -/
def MAX_ITEMS : Nat := 100000

/-- `MAX_ITEM_LENGTH` (transformer.py). -/
def MAX_ITEM_LENGTH : Nat := 8192

/-- `MAX_TOTAL_OUTPUT_CHARS` (transformer.py). -/
def MAX_TOTAL_OUTPUT_CHARS : Nat := 5000000

/-- A Python value appearing as a list element: either a plain `str`, or
anything else (numbers, None, objects, …), which the transformer rejects. -/
inductive PyVal where
  | str (s : Str)
  | nonStr
deriving DecidableEq

/-- The raw argument object of `transform`: an object whose `list_1` /
`list_2` attributes may each be absent (`None`) or a list of values. -/
structure RawPayload where
  list_1 : Option (List PyVal)
  list_2 : Option (List PyVal)
deriving DecidableEq

/-- The distinct `ValueError` raise sites of transformer.py. -/
inductive TError where
  /-- "payload must not be None." -/
  | payloadNone
  /-- 'payload must contain keys "list_1" and "list_2".' -/
  | missingLists
  /-- "{name} exceeds maximum allowed items (100000)." -/
  | tooManyItems (name : Str)
  /-- "All elements of {name} must be strings (index {idx})." -/
  | nonString (name : Str) (idx : Nat)
  /-- "list_1 and list_2 must be of the same length." -/
  | lengthMismatch
  /-- "{name}[{idx}] exceeds maximum allowed length (8192)." -/
  | itemTooLong (name : Str) (idx : Nat)
  /-- "Final output exceeds maximum allowed length; reduce input size." -/
  | outputTooLong
deriving DecidableEq

/-- Decimal digits of a natural number (fuel-based so that it reduces
definitionally). -/
def natDigitsAux : Nat → Nat → Str
  | 0, _ => []
  | fuel + 1, n =>
      if n < 10 then [Char.ofNat (48 + n)]
      else natDigitsAux fuel (n / 10) ++ [Char.ofNat (48 + n % 10)]

/-- Decimal rendering of a natural number, as Python `f"{n}"` produces. -/
def natToStr (n : Nat) : Str := natDigitsAux (n + 1) n

/-- The `ValueError` message text of each raise site, as built by the
f-strings in transformer.py. -/
def errMessage : TError → Str
  | .payloadNone => "payload must not be None.".data
  | .missingLists => "payload must contain keys \"list_1\" and \"list_2\".".data
  | .tooManyItems name => name ++ " exceeds maximum allowed items (100000).".data
  | .nonString name idx =>
      "All elements of ".data ++ name ++ " must be strings (index ".data ++ natToStr idx
        ++ ").".data
  | .lengthMismatch => "list_1 and list_2 must be of the same length.".data
  | .itemTooLong name idx =>
      name ++ "[".data ++ natToStr idx ++ "] exceeds maximum allowed length (8192).".data
  | .outputTooLong => "Final output exceeds maximum allowed length; reduce input size.".data

/-- Element-wise part of `_ensure_is_sequence_of_str`: check every element is
a plain string and return the strings (the `isinstance(item, str)` loop). -/
def extractStrs (name : Str) (idx : Nat) : List PyVal → Except TError (List Str)
  | [] => .ok []
  | .nonStr :: _ => .error (.nonString name idx)
  | .str s :: rest => (extractStrs name (idx + 1) rest).map (s :: ·)

/-- `TransformerApp._ensure_is_sequence_of_str`: the value is known to be a
list (the `isinstance(value, (list, tuple))` guard cannot fire in this
embedding, where list-typed attributes are lists by construction); enforce
`MAX_ITEMS` and that every element is a plain string. -/
def ensureIsSequenceOfStr (value : List PyVal) (name : Str) : Except TError (List Str) :=
  if value.length > MAX_ITEMS then .error (.tooManyItems name)
  else extractStrs name 0 value

/-- `TransformerApp._collapse_whitespace`: strip, then return unchanged on the
fast path (no double space, tab, newline or carriage return), else
`" ".join(s.split())`. -/
def collapse_whitespace (s : Str) : Str :=
  let s := pyStrip s
  if ¬containsSub [' ', ' '] s ∧ ¬containsSub ['\t'] s ∧ ¬containsSub ['\n'] s ∧
      ¬containsSub ['\r'] s then s
  else joinSep [' '] (pySplit s)

/-- `TransformerApp._normalize_item`: collapse whitespace and enforce
`MAX_ITEM_LENGTH` on the normalized item. -/
def normalizeItem (item : Str) (listName : Str) (idx : Nat) : Except TError Str :=
  let norm := collapse_whitespace item
  if norm.length > MAX_ITEM_LENGTH then .error (.itemTooLong listName idx)
  else .ok norm

/-- The normalization list comprehension
`[self._normalize_item(item, name, i) for i, item in enumerate(items)]`. -/
def normalizeItems (listName : Str) (idx : Nat) : List Str → Except TError (List Str)
  | [] => .ok []
  | item :: rest =>
      match normalizeItem item listName idx with
      | .error e => .error e
      | .ok norm => (normalizeItems listName (idx + 1) rest).map (norm :: ·)

/-- The interleaving loop `for a, b in zip(normalized_1, normalized_2):
interleaved_extend([a, b])`. -/
def interleave (l1 l2 : List Str) : List Str :=
  (l1.zip l2).flatMap (fun ab => [ab.1, ab.2])

/-- The body of `TransformerApp.transform` from the
`_ensure_is_sequence_of_str` calls on: validate both lists, compare lengths,
normalize the items, interleave, join with `", "`, enforce the total cap and
upper-case. -/
def transformLists (v1 v2 : List PyVal) : Except TError Str :=
  match ensureIsSequenceOfStr v1 "list_1".data with
  | .error e => .error e
  | .ok list_1 =>
      match ensureIsSequenceOfStr v2 "list_2".data with
      | .error e => .error e
      | .ok list_2 =>
          if list_1.length ≠ list_2.length then .error .lengthMismatch
          else
            match normalizeItems "list_1".data 0 list_1 with
            | .error e => .error e
            | .ok normalized_1 =>
                match normalizeItems "list_2".data 0 list_2 with
                | .error e => .error e
                | .ok normalized_2 =>
                    let joined :=
                      joinSep ", ".data (interleave normalized_1 normalized_2)
                    if joined.length > MAX_TOTAL_OUTPUT_CHARS then
                      .error .outputTooLong
                    else .ok (pyUpper joined)

/-- `TransformerApp.transform`, with the payload argument possibly `None`.
Raising `ValueError` is modelled as `Except.error`. -/
def transform (payload : Option RawPayload) : Except TError Str :=
  match payload with
  | none => .error .payloadNone
  | some p =>
      match p.list_1, p.list_2 with
      | none, _ => .error .missingLists
      | _, none => .error .missingLists
      | some v1, some v2 => transformLists v1 v2

end TransformerApp

/-! ## JSON serialization (Python `json.dumps` / `json.loads`)

The controller stores `json.dumps(response.dict())` — a one-key object
`{"output": <string>}` — and reads it back with `json.loads`; the hasher
digests `json.dumps(payload.dict(), sort_keys=True)` — a two-key object of
string lists.  We embed Python's default (`ensure_ascii=True`) string
escaping, the canonical object/array rendering `json.dumps` produces for
these two shapes, and a parser for the stored one-key shape. -/

/-- Lowercase hexadecimal digit, as `%04x` formatting uses. -/
def hexDigitChar (n : Nat) : Char :=
  if n < 10 then Char.ofNat (48 + n) else Char.ofNat (87 + n)

/-- Four lowercase hex digits of `n < 0x10000` (the `\uXXXX` payload). -/
def hex4 (n : Nat) : Str :=
  [hexDigitChar (n / 4096 % 16), hexDigitChar (n / 256 % 16),
   hexDigitChar (n / 16 % 16), hexDigitChar (n % 16)]

/-- Python `json.dumps` escaping of one character with `ensure_ascii=True`:
`"` and `\` and the named control escapes get two-character escapes, all
other characters outside printable ASCII 0x20–0x7E are `\uXXXX`-escaped
(with a surrogate pair beyond U+FFFF), and printable ASCII is emitted raw. -/
def encodeJsonChar (c : Char) : Str :=
  let n := c.toNat
  if n = 34 then ['\\', '"']
  else if n = 92 then ['\\', '\\']
  else if n = 8 then ['\\', 'b']
  else if n = 12 then ['\\', 'f']
  else if n = 10 then ['\\', 'n']
  else if n = 13 then ['\\', 'r']
  else if n = 9 then ['\\', 't']
  else if 0x20 ≤ n ∧ n ≤ 0x7E then [c]
  else if n < 0x10000 then '\\' :: 'u' :: hex4 n
  else
    let m := n - 0x10000
    ('\\' :: 'u' :: hex4 (0xD800 + m / 0x400)) ++ ('\\' :: 'u' :: hex4 (0xDC00 + m % 0x400))

/-- A JSON string literal for `s`, as `json.dumps` renders it. -/
def encodeJsonString (s : Str) : Str :=
  '"' :: (s.map encodeJsonChar).flatten ++ ['"']

/-- A JSON array of string literals with the default `", "` item separator. -/
def encodeJsonStrList (l : List Str) : Str :=
  '[' :: joinSep ", ".data (l.map encodeJsonString) ++ [']']

/-- Hex digit value of a character, if any (`json.loads` accepts both cases). -/
def hexVal (c : Char) : Option Nat :=
  let n := c.toNat
  if 48 ≤ n ∧ n ≤ 57 then some (n - 48)
  else if 97 ≤ n ∧ n ≤ 102 then some (n - 87)
  else if 65 ≤ n ∧ n ≤ 70 then some (n - 55)
  else none

/-- The numeric value of four hex digits, if all four parse. -/
def hex4Val (a b c d : Char) : Option Nat :=
  match hexVal a, hexVal b, hexVal c, hexVal d with
  | some x, some y, some z, some w => some (4096 * x + 256 * y + 16 * z + w)
  | _, _, _, _ => none

/-- The single-character (non-`\u`) escapes `json.loads` accepts. -/
def escChar (c : Char) : Option Char :=
  if c = '"' then some '"'
  else if c = '\\' then some '\\'
  else if c = '/' then some '/'
  else if c = 'b' then some (Char.ofNat 8)
  else if c = 'f' then some (Char.ofNat 12)
  else if c = 'n' then some '\n'
  else if c = 'r' then some '\r'
  else if c = 't' then some '\t'
  else none

/-- Decode one unit of a JSON string literal body, as the `json.loads`
(strict-mode) string scanner does: the closing quote (`(none, rest)`), a raw
character (raw control characters are rejected), a short escape, or a
`\uXXXX` escape — where a high surrogate must be followed by a low
surrogate and the pair is combined (a lone surrogate, which CPython would
keep as a lone surrogate code unit, has no `Char` representation and is
rejected here; the encoder never emits one). -/
def jsonUnit : Str → Option (Option Char × Str)
  | [] => none
  | c :: rest =>
      if c = '"' then some (none, rest)
      else if c = '\\' then
        match rest with
        | [] => none
        | e :: rest' =>
            if e = 'u' then
              match rest' with
              | a :: b :: c2 :: d :: rest'' =>
                  match hex4Val a b c2 d with
                  | none => none
                  | some hi =>
                      if 0xD800 ≤ hi ∧ hi ≤ 0xDBFF then
                        match rest'' with
                        | bs2 :: u2 :: a2 :: b2 :: c3 :: d2 :: rest3 =>
                            if bs2 = '\\' ∧ u2 = 'u' then
                              match hex4Val a2 b2 c3 d2 with
                              | none => none
                              | some lo =>
                                  if 0xDC00 ≤ lo ∧ lo ≤ 0xDFFF then
                                    some (some (Char.ofNat (0x10000 +
                                      (hi - 0xD800) * 0x400 + (lo - 0xDC00))), rest3)
                                  else none
                            else none
                        | _ => none
                      else if 0xDC00 ≤ hi ∧ hi ≤ 0xDFFF then none
                      else some (some (Char.ofNat hi), rest'')
              | _ => none
            else
              match escChar e with
              | none => none
              | some ec => some (some ec, rest')
      else if c.toNat < 0x20 then none
      else some (some c, rest)

/-- Body of a JSON string literal, after the opening quote: decode units
until the closing quote, returning the decoded characters and the input
remaining after the closing quote.  The recursion is fuelled (each unit
consumes at least one input character, so the input length is always enough
fuel). -/
def parseJsonStrAux : Nat → Str → Option (Str × Str)
  | 0, _ => none
  | fuel + 1, l =>
      match jsonUnit l with
      | none => none
      | some (none, rest) => some ([], rest)
      | some (some ch, rest) =>
          (parseJsonStrAux fuel rest).map (fun sr => (ch :: sr.1, sr.2))

/-- `json.loads` applied to the stored `output_payload` text, followed by
`GetCacheResponse(**payload)`: accepts the canonical one-key rendering
`{"output": "<string>"}` that `json.dumps(response.dict())` produces — the
11-character object prefix and opening quote, the string literal body, and
the closing brace — and returns the `output` string. -/
def jsonLoadsOutput (s : Str) : Option Str :=
  if beginsWith "\x7b\"output\": \"".data s then
    match parseJsonStrAux (s.drop 12).length (s.drop 12) with
    | some (out, rem) => if rem = ['}'] then some out else none
    | _ => none
  else none

/-! ## UTF-8 and SHA-256 (`payload_str.encode()` and `hashlib.sha256`)

`calculate_payload_hash` digests the UTF-8 bytes of the canonical JSON text.
SHA-256 is embedded executably over `Nat` (words kept below 2^32 by explicit
`% 2^32` reductions), following FIPS 180-4. -/

/-- UTF-8 encoding of one scalar value, as `str.encode()` produces. -/
def utf8Char (c : Char) : List Nat :=
  let n := c.toNat
  if n < 0x80 then [n]
  else if n < 0x800 then [0xC0 + n / 64, 0x80 + n % 64]
  else if n < 0x10000 then [0xE0 + n / 4096, 0x80 + n / 64 % 64, 0x80 + n % 64]
  else [0xF0 + n / 262144, 0x80 + n / 4096 % 64, 0x80 + n / 64 % 64, 0x80 + n % 64]

/-- UTF-8 encoding of a string (`s.encode()`). -/
def utf8Encode (s : Str) : List Nat := (s.map utf8Char).flatten

namespace Sha256

/-- Reduce to a 32-bit word. -/
def w32 (n : Nat) : Nat := n % 4294967296

/-- Right rotation of a 32-bit word by `k` (for `0 < k < 32`). -/
def rotr (k n : Nat) : Nat := w32 ((n >>> k) ||| (n <<< (32 - k)))

/-- Bitwise complement of a 32-bit word. -/
def compl32 (n : Nat) : Nat := n ^^^ 4294967295

/-- FIPS 180-4 `Ch`. -/
def ch (e f g : Nat) : Nat := (e &&& f) ^^^ (compl32 e &&& g)

/-- FIPS 180-4 `Maj`. -/
def maj (a b c : Nat) : Nat := (a &&& b) ^^^ (a &&& c) ^^^ (b &&& c)

/-- FIPS 180-4 `Σ0`. -/
def bigSigma0 (x : Nat) : Nat := rotr 2 x ^^^ rotr 13 x ^^^ rotr 22 x

/-- FIPS 180-4 `Σ1`. -/
def bigSigma1 (x : Nat) : Nat := rotr 6 x ^^^ rotr 11 x ^^^ rotr 25 x

/-- FIPS 180-4 `σ0`. -/
def smallSigma0 (x : Nat) : Nat := rotr 7 x ^^^ rotr 18 x ^^^ (x >>> 3)

/-- FIPS 180-4 `σ1`. -/
def smallSigma1 (x : Nat) : Nat := rotr 17 x ^^^ rotr 19 x ^^^ (x >>> 10)

/-- The 64 round constants `K`. -/
def K : List Nat :=
  [1116352408, 1899447441, 3049323471, 3921009573, 961987163,
   1508970993, 2453635748, 2870763221, 3624381080, 310598401,
   607225278, 1426881987, 1925078388, 2162078206, 2614888103,
   3248222580, 3835390401, 4022224774, 264347078, 604807628,
   770255983, 1249150122, 1555081692, 1996064986, 2554220882,
   2821834349, 2952996808, 3210313671, 3336571891, 3584528711,
   113926993, 338241895, 666307205, 773529912, 1294757372,
   1396182291, 1695183700, 1986661051, 2177026350, 2456956037,
   2730485921, 2820302411, 3259730800, 3345764771, 3516065817,
   3600352804, 4094571909, 275423344, 430227734, 506948616,
   659060556, 883997877, 958139571, 1322822218, 1537002063,
   1747873779, 1955562222, 2024104815, 2227730452, 2361852424,
   2428436474, 2756734187, 3204031479, 3329325298]

/-- The initial hash value `H(0)`. -/
def H0 : List Nat :=
  [1779033703, 3144134277, 1013904242, 2773480762,
   1359893119, 2600822924, 528734635, 1541459225]

/-- Big-endian 32-bit words from bytes (message block parsing). -/
def toWords : List Nat → List Nat
  | a :: b :: c :: d :: rest => (a * 16777216 + b * 65536 + c * 256 + d) :: toWords rest
  | _ => []

/-- Group a word list into 16-word blocks. -/
def group16 : List Nat → List (List Nat)
  | w0 :: w1 :: w2 :: w3 :: w4 :: w5 :: w6 :: w7 :: w8 :: w9 :: w10 :: w11 :: w12 :: w13 ::
      w14 :: w15 :: rest =>
      [w0, w1, w2, w3, w4, w5, w6, w7, w8, w9, w10, w11, w12, w13, w14, w15] :: group16 rest
  | _ => []

/-- Message-schedule extension: run `n` more steps, keeping the words computed
so far most-recent-first in `acc`. -/
def extendLoop : Nat → List Nat → List Nat
  | 0, acc => acc
  | n + 1, acc =>
      extendLoop n
        (w32 (smallSigma1 (acc.getD 1 0) + acc.getD 6 0 + smallSigma0 (acc.getD 14 0) +
          acc.getD 15 0) :: acc)

/-- The 64-word message schedule `W` of one block. -/
def schedule (block : List Nat) : List Nat := (extendLoop 48 block.reverse).reverse

/-- The eight 32-bit working variables. -/
structure Hash8 where
  a : Nat
  b : Nat
  c : Nat
  d : Nat
  e : Nat
  f : Nat
  g : Nat
  h : Nat
deriving DecidableEq

/-- One compression round. -/
def round (st : Hash8) (kw : Nat × Nat) : Hash8 :=
  let t1 := w32 (st.h + bigSigma1 st.e + ch st.e st.f st.g + kw.1 + kw.2)
  let t2 := w32 (bigSigma0 st.a + maj st.a st.b st.c)
  ⟨w32 (t1 + t2), st.a, st.b, st.c, w32 (st.d + t1), st.e, st.f, st.g⟩

/-- Compress one 16-word block into the chaining state. -/
def compress (st : Hash8) (block : List Nat) : Hash8 :=
  let e := (K.zip (schedule block)).foldl round st
  ⟨w32 (st.a + e.a), w32 (st.b + e.b), w32 (st.c + e.c), w32 (st.d + e.d), w32 (st.e + e.e),
   w32 (st.f + e.f), w32 (st.g + e.g), w32 (st.h + e.h)⟩

/-- Merkle–Damgård padding: append `0x80`, zero bytes to 56 mod 64, and the
bit length as eight big-endian bytes. -/
def pad (msg : List Nat) : List Nat :=
  let L := msg.length
  let z := (119 - L % 64) % 64
  let bits := 8 * L
  msg ++ 0x80 :: List.replicate z 0 ++
    [bits >>> 56 % 256, bits >>> 48 % 256, bits >>> 40 % 256, bits >>> 32 % 256,
     bits >>> 24 % 256, bits >>> 16 % 256, bits >>> 8 % 256, bits % 256]

/-- The four big-endian bytes of a 32-bit word. -/
def be4 (n : Nat) : List Nat := [n >>> 24 % 256, n >>> 16 % 256, n >>> 8 % 256, n % 256]

/-- SHA-256 digest (32 bytes) of a byte string. -/
def sha256 (msg : List Nat) : List Nat :=
  let st := (group16 (toWords (pad msg))).foldl compress
    ⟨1779033703, 3144134277, 1013904242, 2773480762, 1359893119, 2600822924, 528734635,
     1541459225⟩
  be4 st.a ++ be4 st.b ++ be4 st.c ++ be4 st.d ++ be4 st.e ++ be4 st.f ++ be4 st.g ++ be4 st.h

/-- Lowercase hex rendering of a byte string (`hexdigest()`). -/
def hexOfBytes (bs : List Nat) : Str :=
  (bs.map (fun b => [hexDigitChar (b / 16), hexDigitChar (b % 16)])).flatten

/-- `hashlib.sha256(bytes).hexdigest()`. -/
def sha256hex (msg : List Nat) : Str := hexOfBytes (sha256 msg)

end Sha256

/-! ## Data model (cache_model.py) and the content hasher (caching_utils.py) -/

/-- `CreateCachePayloadRequest`: the validated request model.  (Its Pydantic
`check_lists_length` validator rejects unequal lengths at the HTTP boundary;
the type itself does not constrain the lengths, and the transformer re-checks
them defensively.) -/
structure Payload where
  list_1 : List Str
  list_2 : List Str
deriving DecidableEq

/-- `TransformerApp().transform(payload=payload)` as invoked by the
controller: the payload is a present `CreateCachePayloadRequest`, whose two
attributes are lists of plain strings. -/
def transformP (p : Payload) : Except TransformerApp.TError Str :=
  TransformerApp.transform
    (some ⟨some (p.list_1.map .str), some (p.list_2.map .str)⟩)

/-- `json.dumps(payload.dict(), sort_keys=True)` for a
`CreateCachePayloadRequest`: the canonical two-key object text.  The sorted
key order (`list_1` before `list_2`) coincides with the model's field order,
so `json.dumps(payload.dict())` (used for the stored `input_payload`)
produces the same text. -/
def jsonDumpsPayload (p : Payload) : Str :=
  "\x7b\"list_1\": ".data ++ encodeJsonStrList p.list_1 ++ ", \"list_2\": ".data ++
    encodeJsonStrList p.list_2 ++ ['}']

/-- `json.dumps(response.dict())` for a `GetCacheResponse`: the canonical
one-key object text stored in the `output_payload` column. -/
def jsonDumpsOutput (out : Str) : Str :=
  "\x7b\"output\": ".data ++ encodeJsonString out ++ ['}']

/-- `caching_utils.calculate_payload_hash`: SHA-256 hex digest of the UTF-8
bytes of the canonical JSON serialization of the payload. -/
def calculate_payload_hash (p : Payload) : Str :=
  Sha256.sha256hex (utf8Encode (jsonDumpsPayload p))

/-! ## The durable store and the cache controller (cache_controller.py) -/

/-- A row of the `cache_payloads` table (schema/tables.py): the unique
`payload_id` and the JSON texts of the input and output.  The surrogate
integer key and the timestamp columns of the table are never read or
compared by the controller and are not modelled. -/
structure DbRow where
  payload_id : Str
  input_payload : Str
  output_payload : Str
deriving DecidableEq

/-- The `cache_payloads` table. -/
abbrev DB := List DbRow

/-- `db_session.query(cache_payloads).filter_by(payload_id=payload_id)` +
`fetchone()`: the first row whose `payload_id` column matches, if any. -/
def dbLookup (db : DB) (payload_id : Str) : Option DbRow :=
  db.find? (fun row => row.payload_id = payload_id)

/-- An HTTP error response, as raised by `exception_handler`
(caching_utils.py): a status code and the `detail["message"]` text. -/
structure HTTPError where
  status : Nat
  message : Str
deriving DecidableEq

/-- Decidable equality of `Except` results, so that request outcomes can be
compared computationally. -/
instance instDecEqExcept {ε α : Type} [DecidableEq ε] [DecidableEq α] :
    DecidableEq (Except ε α) := fun a b => by
  cases a <;> cases b
  case error.error e f => exact decidable_of_iff (e = f) (by simp)
  case error.ok e v => exact isFalse (by simp)
  case ok.error v e => exact isFalse (by simp)
  case ok.ok v w => exact decidable_of_iff (v = w) (by simp)

namespace CacheController

/-- `CacheController._get_cached_response_id`. -/
def getCachedResponseId (db : DB) (payload_id : Str) : Option DbRow :=
  dbLookup db payload_id

/-- `CacheController._cache_parsed_response`.

The `cache_payloads` table (schema/tables.py) declares
`payload_id: String(64), unique=True, nullable=False`, so `flush()` of a row
whose `payload_id` already exists violates the unique constraint and raises
an `IntegrityError`; the `except` block of `_cache_parsed_response` logs it,
rolls back (leaving the table unchanged) and re-raises — modelled as
`Except.error ()`.  Otherwise the row is inserted and committed and the
`payload_id` is returned. -/
def cacheParsedResponse (db : DB) (payload_id : Str) (payload : Payload) (response : Str) :
    Except Unit (Str × DB) :=
  let row : DbRow := ⟨payload_id, jsonDumpsPayload payload, jsonDumpsOutput response⟩
  if (dbLookup db payload_id).isSome then .error ()
  else .ok (payload_id, db ++ [row])

/-- `CacheController.create` wrapped in `exception_handler`, with the store
interaction split into the table read by `_get_cached_response_id`
(`dbAtLookup`) and the table written by `_cache_parsed_response` (`dbAtPut`)
— for a lone sequential call the two coincide, and a concurrent winner of the
duplicate-write race is modelled by a `dbAtPut` that already contains the
row.  Returns the handler result, the resulting table, the number of
Transformer invocations and the number of store operations performed.
`exception_handler` maps an uncaught `ValueError` from the transformer to an
HTTP 400 with the error text, and any other exception (the re-raised
`IntegrityError`) to an HTTP 500 "Internal Server Error". -/
def create (dbAtLookup dbAtPut : DB) (payload_id : Str) (payload : Payload) :
    Except HTTPError Str × DB × Nat × Nat :=
  match getCachedResponseId dbAtLookup payload_id with
  | some row => (.ok row.payload_id, dbAtPut, 0, 1)
  | none =>
      match transformP payload with
      | .error e => (.error ⟨400, TransformerApp.errMessage e⟩, dbAtPut, 1, 1)
      | .ok out =>
          match cacheParsedResponse dbAtPut payload_id payload out with
          | .error () => (.error ⟨500, "Internal Server Error".data⟩, dbAtPut, 1, 2)
          | .ok (pid, db') => (.ok pid, db', 1, 2)

/-- `CacheController.get` wrapped in `exception_handler`: look the row up; on
a miss raise `HTTPException(404, f"Payload ID {payload_id} not found in
cache.")` (re-wrapped by the handler with the same status and message);
on a hit, `json.loads` the stored `output_payload` and return the
`GetCacheResponse` output (a loads/constructor failure would be an uncaught
exception, mapped to HTTP 500). -/
def get (db : DB) (payload_id : Str) : Except HTTPError Str :=
  match dbLookup db payload_id with
  | none =>
      .error ⟨404, "Payload ID ".data ++ payload_id ++ " not found in cache.".data⟩
  | some row =>
      match jsonLoadsOutput row.output_payload with
      | none => .error ⟨500, "Internal Server Error".data⟩
      | some out => .ok out

end CacheController

/-! ## The router layer with its in-memory registries (caches.py) -/

/-- The process-local state: the `REDIS_CACHED_IDS` set, the
`REDIS_OUTPUT_CACHE` map, and the `cache_payloads` table. -/
structure SysState where
  redisCachedIds : List Str
  redisOutputCache : List (Str × Str)
  db : DB
deriving DecidableEq

/-- Lookup in the `REDIS_OUTPUT_CACHE` map. -/
def lookupAssoc (m : List (Str × Str)) (k : Str) : Option Str :=
  (m.find? (fun e => e.1 = k)).map (·.2)

/-- The outcome of one POST /payload request. -/
structure CreateOutcome where
  /-- The handler result: the `CreateCachePayloadResponse` identifier, or the
  `HTTPException` raised. -/
  result : Except HTTPError Str
  /-- The process state afterwards. -/
  state : SysState
  /-- How many times `TransformerApp.transform` ran during the request. -/
  transformerCalls : Nat
  /-- How many store (database) operations ran during the request. -/
  storeCalls : Nat
deriving DecidableEq

/-- POST /payload with the duplicate-write race made explicit: the
`check_redis_cache` decorator around `create_payload` (caches.py) computes
`payload_id = calculate_payload_hash(payload)`, short-circuits if it is in
`REDIS_CACHED_IDS`, otherwise runs `CacheController.create` (whose store
write runs against `dbAtPut`, the table as left by any concurrent winner) and
on success records the returned identifier (if non-empty) in
`REDIS_CACHED_IDS`.  An exception propagates out of the wrapper, which then
does not touch `REDIS_CACHED_IDS`. -/
def create_payload_race (s : SysState) (dbAtPut : DB) (payload : Payload) : CreateOutcome :=
  let payload_id := calculate_payload_hash payload
  if payload_id ∈ s.redisCachedIds then ⟨.ok payload_id, s, 0, 0⟩
  else
    match CacheController.create s.db dbAtPut payload_id payload with
    | (.error e, db', t, d) => ⟨.error e, { s with db := db' }, t, d⟩
    | (.ok pid, db', t, d) =>
        ⟨.ok pid,
          { s with
            redisCachedIds := if pid.isEmpty then s.redisCachedIds else pid :: s.redisCachedIds,
            db := db' },
          t, d⟩

/-- POST /payload in the absence of concurrent writers: the store write runs
against the same table the lookup saw. -/
def create_payload (s : SysState) (payload : Payload) : CreateOutcome :=
  create_payload_race s s.db payload

/-- `n` sequential POST /payload calls with the identical payload; each call
starts from the state the previous call left. -/
def createSeq (payload : Payload) : Nat → SysState → List CreateOutcome
  | 0, _ => []
  | n + 1, s =>
      let o := create_payload s payload
      o :: createSeq payload n o.state

/-- GET /payload/{id}: the `cache_read_through` decorator around
`read_payload` (caches.py) consults `REDIS_OUTPUT_CACHE` first (the decorator
skips both the lookup and the later fill-in when the id is the empty, falsy
string); on a miss it runs `CacheController.get` and, on success, populates
`REDIS_OUTPUT_CACHE`. -/
def read_payload (s : SysState) (id : Str) : Except HTTPError Str × SysState :=
  match if id.isEmpty then none else lookupAssoc s.redisOutputCache id with
  | some cached => (.ok cached, s)
  | none =>
      match CacheController.get s.db id with
      | .error e => (.error e, s)
      | .ok out =>
          (.ok out,
            if id.isEmpty then s
            else { s with redisOutputCache := (id, out) :: s.redisOutputCache })


/-! ## Derived definitions used by the verification

Named shorthands for statements and concrete instances: the joined
pre-uppercase string of a payload, the claim-following failure-condition
predicates, the cache-consistency predicate, and the concrete payloads the
theorems below evaluate. -/

namespace TransformerApp

/-- The pre-uppercase joined string a payload's lists produce. -/
def joinedOf (p : Payload) : Str :=
  joinSep ", ".data
    (interleave (p.list_1.map collapse_whitespace) (p.list_2.map collapse_whitespace))

/-- The failure conditions exactly as C5 enumerates them, stated over the
transformer's raw input for comparison with the source's `transform`: either
list is missing (or there is no payload at all), the lists' lengths differ,
some element is not a plain string, some element's normalized length exceeds
MAX_ITEM_LENGTH, or an element count exceeds MAX_ITEMS. -/
def listsInvalid (v1 v2 : List PyVal) : Prop :=
  v1.length > MAX_ITEMS ∨ v2.length > MAX_ITEMS ∨
  PyVal.nonStr ∈ v1 ∨ PyVal.nonStr ∈ v2 ∨
  v1.length ≠ v2.length ∨
  (∃ s, PyVal.str s ∈ v1 ∧ (collapse_whitespace s).length > MAX_ITEM_LENGTH) ∨
  (∃ s, PyVal.str s ∈ v2 ∧ (collapse_whitespace s).length > MAX_ITEM_LENGTH)

/-- The condition C5's enumeration omits: all elements are strings but the
joined pre-uppercase output exceeds MAX_TOTAL_OUTPUT_CHARS. -/
def listsOutputTooLong (v1 v2 : List PyVal) : Prop :=
  ∃ (l1 l2 : List Str), v1 = l1.map .str ∧ v2 = l2.map .str ∧
    (joinSep ", ".data (interleave (l1.map collapse_whitespace)
      (l2.map collapse_whitespace))).length > MAX_TOTAL_OUTPUT_CHARS

/-- C5's enumerated conditions, over the optional payload. -/
def listedInvalidConditions (payload : Option RawPayload) : Prop :=
  match payload with
  | none => True
  | some p =>
      match p.list_1, p.list_2 with
      | none, _ => True
      | _, none => True
      | some v1, some v2 => listsInvalid v1 v2

/-- The amended conditions: C5's enumeration plus the total-output cap. -/
def amendedInvalidConditions (payload : Option RawPayload) : Prop :=
  match payload with
  | none => True
  | some p =>
      match p.list_1, p.list_2 with
      | none, _ => True
      | _, none => True
      | some v1, some v2 => listsInvalid v1 v2 ∨ listsOutputTooLong v1 v2

end TransformerApp

/-- No two adjacent space characters. -/
def noDbl : Str → Bool
  | [] => true
  | [_] => true
  | a :: b :: t => !(a = ' ' && b = ' ') && noDbl (b :: t)

/-- The (["hello"], ["world"]) payload of the spec's concrete scenarios. -/
def pHello : Payload := ⟨["hello".data], ["world".data]⟩

/-- Cache consistency for one payload: whatever any of the three state
components record under this payload's identifier agrees with `out` — the
fast-path output map maps it to `out`, the store row for it carries the JSON
text of `out`, and a fast-path registry entry is backed by a store row or a
cached output.  (The initial empty state satisfies this vacuously, and the
system's own writes maintain it.) -/
def ConsistentFor (s : SysState) (p : Payload) (out : Str) : Prop :=
  (∀ o, lookupAssoc s.redisOutputCache (calculate_payload_hash p) = some o → o = out) ∧
  (∀ row, dbLookup s.db (calculate_payload_hash p) = some row →
      row.output_payload = jsonDumpsOutput out) ∧
  (calculate_payload_hash p ∈ s.redisCachedIds →
      (dbLookup s.db (calculate_payload_hash p)).isSome = true ∨
      (lookupAssoc s.redisOutputCache (calculate_payload_hash p)).isSome = true)

/-- The 8192-character all-ß item. -/
def blkSS : Str := List.replicate 8192 'ß'

/-- The payload whose two lists are 305 copies each of `blkSS`. -/
def pSS : Payload := ⟨List.replicate 305 blkSS, List.replicate 305 blkSS⟩

/-- The pre-uppercase joined string `pSS` produces. -/
def joinedSS : Str := joinSep ", ".data (List.replicate 610 blkSS)

/-- The 8192-character all-'a' item. -/
def blkA : Str := List.replicate 8192 'a'

/-- The payload whose two lists are 306 copies each of `blkA`. -/
def pAA : Payload := ⟨List.replicate 306 blkA, List.replicate 306 blkA⟩


namespace TransformerApp

theorem extractStrs_map_str (name : Str) (idx : Nat) (l : List Str) :
    extractStrs name idx (l.map .str) = .ok l := by
  induction l generalizing idx with
  | nil => rfl
  | cons x xs ih => simp [extractStrs, ih, Except.map]

theorem normalizeItems_ok {name : Str} {idx : Nat} {items norm : List Str}
    (h : normalizeItems name idx items = .ok norm) :
    norm = items.map collapse_whitespace ∧
      ∀ it ∈ items, (collapse_whitespace it).length ≤ MAX_ITEM_LENGTH := by
  induction items generalizing idx norm with
  | nil =>
      simp only [normalizeItems, Except.ok.injEq] at h
      simp [← h]
  | cons x xs ih =>
      rw [normalizeItems] at h
      rcases hx : normalizeItem x name idx with e | nx
      · rw [hx] at h; exact absurd h (by simp)
      · rw [hx] at h
        rcases hr : normalizeItems name (idx + 1) xs with e | nr
        · rw [hr] at h; exact absurd h (by simp [Except.map])
        · rw [hr] at h
          simp only [Except.map, Except.ok.injEq] at h
          obtain ⟨h1, h2⟩ := ih hr
          rw [normalizeItem] at hx
          by_cases hlen : (collapse_whitespace x).length > MAX_ITEM_LENGTH
          · simp [hlen] at hx
          · simp only [hlen, if_false, if_neg, Except.ok.injEq] at hx
            subst h
            refine ⟨by rw [List.map_cons, hx, h1], ?_⟩
            intro it hit
            rcases List.mem_cons.mp hit with h | h
            · subst h; omega
            · exact h2 it h

theorem normalizeItems_eq_ok {items : List Str} (name : Str) (idx : Nat)
    (h : ∀ it ∈ items, (collapse_whitespace it).length ≤ MAX_ITEM_LENGTH) :
    normalizeItems name idx items = .ok (items.map collapse_whitespace) := by
  induction items generalizing idx with
  | nil => rfl
  | cons x xs ih =>
      have hx : (collapse_whitespace x).length ≤ MAX_ITEM_LENGTH := h x (by simp)
      rw [normalizeItems, normalizeItem]
      simp only [show ¬(collapse_whitespace x).length > MAX_ITEM_LENGTH by omega, if_neg,
        not_false_iff, if_false]
      rw [ih _ (fun it hit => h it (by simp [hit]))]
      rfl

theorem transformP_ok_shape {p : Payload} {out : Str} (h : transformP p = .ok out) :
    out = pyUpper (joinedOf p) ∧ (joinedOf p).length ≤ MAX_TOTAL_OUTPUT_CHARS := by
  have h' : transformLists (p.list_1.map .str) (p.list_2.map .str) = .ok out := h
  rw [transformLists] at h'
  split at h'
  · exact absurd h' (by simp)
  next l1 h1 =>
  split at h'
  · exact absurd h' (by simp)
  next l2 h2 =>
  have hl1 : l1 = p.list_1 := by
    rw [ensureIsSequenceOfStr] at h1
    by_cases hc : p.list_1.length > MAX_ITEMS
    · simp [hc] at h1
    · simp [hc, extractStrs_map_str] at h1
      exact h1.symm
  have hl2 : l2 = p.list_2 := by
    rw [ensureIsSequenceOfStr] at h2
    by_cases hc : p.list_2.length > MAX_ITEMS
    · simp [hc] at h2
    · simp [hc, extractStrs_map_str] at h2
      exact h2.symm
  subst hl1; subst hl2
  split at h'
  · exact absurd h' (by simp)
  split at h'
  · exact absurd h' (by simp)
  next n1 h3 =>
  split at h'
  · exact absurd h' (by simp)
  next n2 h4 =>
  obtain ⟨hn1, -⟩ := normalizeItems_ok h3
  obtain ⟨hn2, -⟩ := normalizeItems_ok h4
  subst hn1; subst hn2
  dsimp only at h'
  split at h'
  · exact absurd h' (by simp)
  next hcap =>
  simp only [Except.ok.injEq] at h'
  have hsep : ", ".data = [',', ' '] := rfl
  exact ⟨h'.symm, by rw [joinedOf, hsep]; omega⟩

end TransformerApp

set_option maxRecDepth 4000 in
/-- C3: on a valid payload, transform normalizes each element, interleaves the
two lists, joins with ", " and upper-cases; the spec's concrete six-string
example produces the documented output, and two empty lists produce the empty
string. -/
theorem claim_C3 :
    (∀ p out, transformP p = .ok out → out = pyUpper (TransformerApp.joinedOf p)) ∧
    transformP ⟨["first string".data, "second string".data, "third string".data],
        ["other string".data, "another string".data, "last string".data]⟩ =
      .ok "FIRST STRING, OTHER STRING, SECOND STRING, ANOTHER STRING, THIRD STRING, LAST STRING".data ∧
    transformP ⟨[], []⟩ = .ok [] :=
  ⟨fun _ _ h => (TransformerApp.transformP_ok_shape h).1, by decide, by decide⟩

/-- C3 witness: the general clause of `claim_C3` applied to the concrete
payload (["hello"], ["world"]). -/
theorem claim_C3_witness :
    "HELLO, WORLD".data =
      pyUpper (TransformerApp.joinedOf ⟨["hello".data], ["world".data]⟩) :=
  claim_C3.1 ⟨["hello".data], ["world".data]⟩ "HELLO, WORLD".data (by decide)

/-! ## Properties of the whitespace primitives -/

theorem pyStrip_eq_rdropWhile (s : Str) :
    pyStrip s = List.rdropWhile pyIsSpace (s.dropWhile pyIsSpace) := rfl

theorem dropWhile_rdropWhile (l : Str) :
    (List.rdropWhile pyIsSpace (l.dropWhile pyIsSpace)).dropWhile pyIsSpace =
      List.rdropWhile pyIsSpace (l.dropWhile pyIsSpace) := by
  rw [List.dropWhile_eq_self_iff]
  intro hl
  have hpre := List.rdropWhile_prefix pyIsSpace (l.dropWhile pyIsSpace)
  have hlen : 0 < (l.dropWhile pyIsSpace).length :=
    lt_of_lt_of_le hl (hpre.length_le)
  have hget := hpre.getElem (show 0 < _ from hl)
  simp only [List.get_eq_getElem]
  rw [hget]
  exact List.dropWhile_get_zero_not pyIsSpace l hlen

theorem pyStrip_idem (s : Str) : pyStrip (pyStrip s) = pyStrip s := by
  rw [pyStrip_eq_rdropWhile, pyStrip_eq_rdropWhile, dropWhile_rdropWhile,
    List.rdropWhile_idempotent]

theorem pyStrip_of_clean {s : Str} (h : ∀ c ∈ s, ¬pyIsSpace c) : pyStrip s = s := by
  rw [pyStrip_eq_rdropWhile]
  rw [List.dropWhile_eq_self_iff.mpr]
  · rw [List.rdropWhile_eq_self_iff.mpr]
    intro hl
    exact h _ (List.getLast_mem hl)
  · intro hl
    exact h _ (List.get_mem s _ hl)

theorem beginsWith_iff {pat l : Str} : beginsWith pat l = true ↔ ∃ t, l = pat ++ t := by
  induction pat generalizing l with
  | nil => simp [beginsWith]
  | cons p ps ih =>
      cases l with
      | nil => simp [beginsWith]
      | cons c cs =>
          simp only [beginsWith, Bool.and_eq_true, decide_eq_true_eq, ih, List.cons_append,
            List.cons.injEq]
          constructor
          · rintro ⟨rfl, t, rfl⟩; exact ⟨t, rfl, rfl⟩
          · rintro ⟨t, rfl, rfl⟩; exact ⟨rfl, t, rfl⟩

theorem containsSub_iff {pat l : Str} :
    containsSub pat l = true ↔ ∃ pre post, l = pre ++ pat ++ post := by
  induction l with
  | nil =>
      simp only [containsSub, List.isEmpty_iff]
      constructor
      · rintro rfl; exact ⟨[], [], rfl⟩
      · rintro ⟨pre, post, h⟩
        exact (List.append_eq_nil.mp ((List.append_eq_nil.mp h.symm).1)).2
  | cons c cs ih =>
      simp only [containsSub, Bool.or_eq_true, beginsWith_iff, ih]
      constructor
      · rintro (⟨t, ht⟩ | ⟨pre, post, rfl⟩)
        · exact ⟨[], t, by simpa using ht⟩
        · exact ⟨c :: pre, post, rfl⟩
      · rintro ⟨pre, post, h⟩
        cases pre with
        | nil => exact Or.inl ⟨post, by simpa using h⟩
        | cons a pre' =>
            simp only [List.cons_append, List.cons.injEq] at h
            exact Or.inr ⟨pre', post, h.2⟩

theorem containsSub_single {c : Char} {l : Str} : containsSub [c] l = true ↔ c ∈ l := by
  rw [containsSub_iff]
  constructor
  · rintro ⟨pre, post, rfl⟩
    simp
  · intro h
    obtain ⟨s, t, rfl⟩ := List.append_of_mem h
    exact ⟨s, t, by simp⟩

theorem mem_of_containsSub {pat l : Str} {c : Char} (h : containsSub pat l = true)
    (hc : c ∈ pat) : c ∈ l := by
  obtain ⟨pre, post, rfl⟩ := containsSub_iff.mp h
  simp [hc]

theorem pySplitAux_tokens {cs acc : Str} (hacc : ∀ c ∈ acc, ¬pyIsSpace c) :
    ∀ w ∈ pySplitAux cs acc, w ≠ [] ∧ ∀ c ∈ w, ¬pyIsSpace c := by
  induction cs generalizing acc with
  | nil =>
      intro w hw
      rw [pySplitAux] at hw
      by_cases he : acc.isEmpty
      · simp [he] at hw
      · simp only [he, if_false, if_neg, Bool.false_eq_true, not_false_iff,
          List.mem_singleton] at hw
        subst hw
        refine ⟨by simpa [List.isEmpty_iff] using he, ?_⟩
        intro c hc
        exact hacc c (List.mem_reverse.mp hc)
  | cons c cs ih =>
      intro w hw
      rw [pySplitAux] at hw
      by_cases hsp : pyIsSpace c
      · simp only [hsp, if_true] at hw
        by_cases he : acc.isEmpty
        · simp only [he, if_true] at hw
          exact ih (by simp) w hw
        · simp only [he, Bool.false_eq_true, if_false, if_neg, not_false_iff,
            List.mem_cons] at hw
          rcases hw with rfl | hw
          · refine ⟨by simpa [List.isEmpty_iff] using he, ?_⟩
            intro d hd
            exact hacc d (List.mem_reverse.mp hd)
          · exact ih (by simp) w hw
      · simp only [hsp, Bool.false_eq_true, if_false, if_neg, not_false_iff] at hw
        refine ih ?_ w hw
        intro d hd
        rcases List.mem_cons.mp hd with rfl | hd
        · exact hsp
        · exact hacc d hd

theorem pySplit_tokens (s : Str) :
    ∀ w ∈ pySplit s, w ≠ [] ∧ ∀ c ∈ w, ¬pyIsSpace c :=
  pySplitAux_tokens (by simp)

theorem joinSep_cons (sep w : Str) {ws : List Str} (h : ws ≠ []) :
    joinSep sep (w :: ws) = w ++ sep ++ joinSep sep ws := by
  cases ws with
  | nil => exact absurd rfl h
  | cons v vs => rfl

theorem joinSep_append_singleton (sep w : Str) {ws : List Str} (h : ws ≠ []) :
    joinSep sep (ws ++ [w]) = joinSep sep ws ++ sep ++ w := by
  induction ws with
  | nil => exact absurd rfl h
  | cons v vs ih =>
      cases vs with
      | nil => rfl
      | cons u us =>
          rw [List.cons_append, joinSep_cons sep v (by simp), ih (by simp),
            joinSep_cons sep v (by simp)]
          simp [List.append_assoc]

theorem joinSep_reverse (sep : Str) (ws : List Str) :
    (joinSep sep ws).reverse = joinSep sep.reverse ((ws.map List.reverse).reverse) := by
  induction ws with
  | nil => rfl
  | cons w vs ih =>
      cases vs with
      | nil => rfl
      | cons v us =>
          rw [joinSep_cons sep w (by simp)]
          simp only [List.reverse_append, ih, List.map_cons, List.reverse_cons]
          rw [joinSep_append_singleton sep.reverse w.reverse (by simp),
            List.append_assoc]

theorem dropWhile_joinSep {ws : List Str}
    (hw : ∀ w ∈ ws, w ≠ [] ∧ ∀ c ∈ w, ¬pyIsSpace c) :
    (joinSep [' '] ws).dropWhile pyIsSpace = joinSep [' '] ws := by
  cases ws with
  | nil => rfl
  | cons w vs =>
      obtain ⟨hne, hcl⟩ := hw w (by simp)
      cases w with
      | nil => exact absurd rfl hne
      | cons a w' =>
          have ha : ¬pyIsSpace a := hcl a (by simp)
          cases vs with
          | nil => simp [joinSep, List.dropWhile_cons, ha]
          | cons v us =>
              rw [joinSep_cons [' '] _ (by simp)]
              simp [List.dropWhile_cons, ha]

theorem pyStrip_joinSep {ws : List Str}
    (hw : ∀ w ∈ ws, w ≠ [] ∧ ∀ c ∈ w, ¬pyIsSpace c) :
    pyStrip (joinSep [' '] ws) = joinSep [' '] ws := by
  rw [pyStrip, dropWhile_joinSep hw]
  have hrev : ∀ w ∈ (ws.map List.reverse).reverse, w ≠ [] ∧ ∀ c ∈ w, ¬pyIsSpace c := by
    intro w hwm
    rw [List.mem_reverse, List.mem_map] at hwm
    obtain ⟨v, hv, rfl⟩ := hwm
    obtain ⟨h1, h2⟩ := hw v hv
    exact ⟨by simpa using h1, fun c hc => h2 c (List.mem_reverse.mp hc)⟩
  rw [show (joinSep [' '] ws).reverse = joinSep [' '] ((ws.map List.reverse).reverse) from
    joinSep_reverse [' '] ws, dropWhile_joinSep hrev,
    joinSep_reverse [' '] ((ws.map List.reverse).reverse)]
  simp [List.map_reverse, List.map_map, Function.comp_def]

theorem not_containsSub_of_noDbl {l : Str} (h : noDbl l = true) :
    containsSub [' ', ' '] l = false := by
  induction l with
  | nil => rfl
  | cons c cs ih =>
      cases cs with
      | nil => simp [containsSub, beginsWith]
      | cons b t =>
          rw [noDbl] at h
          simp only [Bool.and_eq_true, Bool.not_eq_true', Bool.and_eq_false_iff,
            decide_eq_false_iff_not] at h
          rw [containsSub]
          simp only [Bool.or_eq_false_iff]
          refine ⟨?_, ih h.2⟩
          simp only [beginsWith, Bool.and_eq_false_iff, decide_eq_false_iff_not]
          rcases h.1 with h1 | h1
          · exact Or.inl (fun hc => h1 hc.symm)
          · exact Or.inr (Or.inl (fun hc => h1 hc.symm))

theorem noDbl_append {w j : Str} (hw : ' ' ∉ w) (hj : noDbl j = true) :
    noDbl (w ++ j) = true := by
  induction w with
  | nil => simpa
  | cons a w' ih =>
      have ha : a ≠ ' ' := fun h => hw (h ▸ List.mem_cons_self a w')
      have hrest := ih (fun h => hw (List.mem_cons_of_mem a h))
      cases hw' : w' ++ j with
      | nil => rw [List.cons_append, hw']; rfl
      | cons b t =>
          rw [List.cons_append, hw', noDbl]
          rw [hw'] at hrest
          simp [hrest, ha]

theorem noDbl_joinSep {ws : List Str}
    (hw : ∀ w ∈ ws, w ≠ [] ∧ ∀ c ∈ w, ¬pyIsSpace c) :
    noDbl (joinSep [' '] ws) = true := by
  induction ws with
  | nil => rfl
  | cons w vs ih =>
      have hmem : ' ' ∉ w := fun hm => (hw w (by simp)).2 ' ' hm (by decide)
      cases vs with
      | nil =>
          have h := @noDbl_append w [] hmem rfl
          simpa using h
      | cons v us =>
          rw [joinSep_cons [' '] w (by simp), List.append_assoc]
          refine noDbl_append hmem ?_
          obtain ⟨hvne, hvcl⟩ := hw v (by simp)
          obtain ⟨a, v', rfl⟩ : ∃ a v', v = a :: v' := by
            cases v with
            | nil => exact absurd rfl hvne
            | cons a v' => exact ⟨a, v', rfl⟩
          have ha : a ≠ ' ' := fun h => hvcl a (by simp) (h ▸ by decide)
          have hrest := ih (fun u hu => hw u (by simp [hu]))
          obtain ⟨rest, hrec⟩ : ∃ rest, joinSep [' '] ((a :: v') :: us) = a :: rest := by
            cases us with
            | nil => exact ⟨v', rfl⟩
            | cons u t =>
                refine ⟨v' ++ [' '] ++ joinSep [' '] (u :: t), ?_⟩
                rw [joinSep_cons [' '] (a :: v') (by simp)]
                simp
          rw [List.singleton_append, hrec, noDbl]
          rw [hrec] at hrest
          simp [hrest, ha]

theorem mem_joinSep {c : Char} {sep : Str} {ws : List Str}
    (h : c ∈ joinSep sep ws) : c ∈ sep ∨ ∃ w ∈ ws, c ∈ w := by
  induction ws with
  | nil => simp [joinSep] at h
  | cons w vs ih =>
      cases vs with
      | nil =>
          exact Or.inr ⟨w, by simp, h⟩
      | cons v us =>
          rw [joinSep_cons sep w (by simp)] at h
          simp only [List.append_assoc, List.mem_append] at h
          rcases h with h | h | h
          · exact Or.inr ⟨w, by simp, h⟩
          · exact Or.inl h
          · rcases ih h with h | ⟨u, hu, hc⟩
            · exact Or.inl h
            · exact Or.inr ⟨u, by simp [hu], hc⟩

namespace TransformerApp

/-- The fast-path guard of `_collapse_whitespace` holds for any string with no
run of two spaces and no tab, newline or carriage return. -/
theorem collapse_guard {t : Str} (h1 : containsSub [' ', ' '] t = false)
    (h2 : '\t' ∉ t) (h3 : '\n' ∉ t) (h4 : '\r' ∉ t) :
    (¬containsSub [' ', ' '] t ∧ ¬containsSub ['\t'] t ∧ ¬containsSub ['\n'] t ∧
      ¬containsSub ['\r'] t) := by
  refine ⟨by simp [h1], ?_, ?_, ?_⟩ <;>
    · simp only [Bool.not_eq_true]
      rw [← Bool.not_eq_true, containsSub_single]
      assumption

/-- C10 core: `_collapse_whitespace` is idempotent. -/
theorem collapse_whitespace_idem (s : Str) :
    collapse_whitespace (collapse_whitespace s) = collapse_whitespace s := by
  by_cases hguard : ¬containsSub [' ', ' '] (pyStrip s) ∧ ¬containsSub ['\t'] (pyStrip s) ∧
      ¬containsSub ['\n'] (pyStrip s) ∧ ¬containsSub ['\r'] (pyStrip s)
  · have hval : collapse_whitespace s = pyStrip s := by
      rw [collapse_whitespace]
      exact if_pos hguard
    rw [hval, collapse_whitespace, pyStrip_idem]
    exact if_pos hguard
  · have hval : collapse_whitespace s = joinSep [' '] (pySplit (pyStrip s)) := by
      rw [collapse_whitespace]
      exact if_neg hguard
    have htok := pySplit_tokens (pyStrip s)
    have hstrip : pyStrip (joinSep [' '] (pySplit (pyStrip s))) =
        joinSep [' '] (pySplit (pyStrip s)) := pyStrip_joinSep htok
    have hnodbl : containsSub [' ', ' '] (joinSep [' '] (pySplit (pyStrip s))) = false :=
      not_containsSub_of_noDbl (noDbl_joinSep htok)
    have hnmem : ∀ c : Char, pyIsSpace c → c ≠ ' ' →
        c ∉ joinSep [' '] (pySplit (pyStrip s)) := by
      intro c hsp hne hmem
      rcases mem_joinSep hmem with h | ⟨w, hw, hc⟩
      · exact hne (List.mem_singleton.mp h)
      · exact (htok w hw).2 c hc hsp
    have hguard' := collapse_guard hnodbl
      (hnmem '\t' (by decide) (by decide)) (hnmem '\n' (by decide) (by decide))
      (hnmem '\r' (by decide) (by decide))
    rw [hval, collapse_whitespace, hstrip]
    exact if_pos hguard'

end TransformerApp

/-- C10: the transformer's whitespace normalization `_collapse_whitespace` is
idempotent — normalizing an already-normalized string changes nothing, so
every element of a successful transform's output is in normalized form. -/
theorem claim_C10 (s : Str) :
    TransformerApp.collapse_whitespace (TransformerApp.collapse_whitespace s) =
      TransformerApp.collapse_whitespace s :=
  TransformerApp.collapse_whitespace_idem s

set_option maxRecDepth 40000 in
/-- C9: the hasher serializes the payload canonically with explicit
separators before digesting, so the two payloads with equal element
concatenation but different element boundaries — list_1 = ["ab","c"] versus
list_1 = ["a","bc"], list_2 = ["x","y"] in both — serialize differently and
receive different identifiers. -/
theorem claim_C9 :
    jsonDumpsPayload ⟨["ab".data, "c".data], ["x".data, "y".data]⟩ ≠
        jsonDumpsPayload ⟨["a".data, "bc".data], ["x".data, "y".data]⟩ ∧
      calculate_payload_hash ⟨["ab".data, "c".data], ["x".data, "y".data]⟩ ≠
        calculate_payload_hash ⟨["a".data, "bc".data], ["x".data, "y".data]⟩ := by
  constructor <;> decide

/-- C7: reading an identifier present neither in the fast-path output map nor
in the durable store fails with the 404 `NotFoundError` whose message names
the identifier, and leaves the state unchanged. -/
theorem claim_C7 (s : SysState) (id : Str)
    (hfast : lookupAssoc s.redisOutputCache id = none)
    (hdb : dbLookup s.db id = none) :
    read_payload s id =
      (.error ⟨404, "Payload ID ".data ++ id ++ " not found in cache.".data⟩, s) := by
  rw [read_payload]
  have hsel : (if id.isEmpty then none else lookupAssoc s.redisOutputCache id) =
      (none : Option Str) := by
    by_cases h : id.isEmpty <;> simp [h, hfast]
  rw [hsel, CacheController.get, hdb]

set_option maxRecDepth 40000 in
/-- C7 witness: `claim_C7` at the empty state and the identifier "deadbeef". -/
theorem claim_C7_witness :
    read_payload ⟨[], [], []⟩ "deadbeef".data =
      (.error ⟨404, "Payload ID ".data ++ "deadbeef".data ++ " not found in cache.".data⟩,
        ⟨[], [], []⟩) :=
  claim_C7 ⟨[], [], []⟩ "deadbeef".data (by decide) (by decide)

/-- C6: when the transformer raises on a payload whose identifier is in
neither the fast-path registry nor the store, Create propagates the error as
an HTTP 400 carrying the `ValueError` text and leaves the entire state
(store and both registries) unchanged; the transformer ran once and the store
was only read, never written. -/
theorem claim_C6 (s : SysState) (p : Payload) (e : TransformerApp.TError)
    (hreg : calculate_payload_hash p ∉ s.redisCachedIds)
    (hdb : dbLookup s.db (calculate_payload_hash p) = none)
    (htr : transformP p = .error e) :
    create_payload s p =
      ⟨.error ⟨400, TransformerApp.errMessage e⟩, s, 1, 1⟩ := by
  rw [create_payload, create_payload_race, if_neg hreg, CacheController.create,
    CacheController.getCachedResponseId, hdb, htr]

set_option maxRecDepth 40000 in
/-- C6 witness: `claim_C6` at the empty state and the length-mismatch payload
(["a","b"], ["x"]). -/
theorem claim_C6_witness :
    create_payload ⟨[], [], []⟩ ⟨["a".data, "b".data], ["x".data]⟩ =
      ⟨.error ⟨400, TransformerApp.errMessage .lengthMismatch⟩, ⟨[], [], []⟩, 1, 1⟩ :=
  claim_C6 ⟨[], [], []⟩ ⟨["a".data, "b".data], ["x".data]⟩ .lengthMismatch
    (by decide) (by decide) (by decide)

theorem dbLookup_payload_id {db : DB} {id : Str} {row : DbRow}
    (h : dbLookup db id = some row) : row.payload_id = id := by
  have := List.find?_some h
  simpa using this

theorem sha256hex_ne_nil (msg : List Nat) : Sha256.sha256hex msg ≠ [] := by
  rw [Sha256.sha256hex, Sha256.sha256]
  simp [Sha256.hexOfBytes, Sha256.be4]

theorem hash_ne_nil (p : Payload) : calculate_payload_hash p ≠ [] :=
  sha256hex_ne_nil _

theorem create_hit {s : SysState} {p : Payload}
    (h : calculate_payload_hash p ∈ s.redisCachedIds) :
    create_payload s p = ⟨.ok (calculate_payload_hash p), s, 0, 0⟩ := by
  rw [create_payload, create_payload_race, if_pos h]

theorem create_ok {s : SysState} {p : Payload} {out : Str}
    (htr : transformP p = .ok out) :
    (create_payload s p).result = .ok (calculate_payload_hash p) ∧
      calculate_payload_hash p ∈ (create_payload s p).state.redisCachedIds ∧
      (create_payload s p).transformerCalls ≤ 1 := by
  by_cases hin : calculate_payload_hash p ∈ s.redisCachedIds
  · rw [create_hit hin]
    exact ⟨rfl, hin, by norm_num⟩
  · rw [create_payload, create_payload_race, if_neg hin, CacheController.create,
      CacheController.getCachedResponseId]
    rcases hlook : dbLookup s.db (calculate_payload_hash p) with _ | row
    · rw [htr]
      simp [CacheController.cacheParsedResponse, hlook, List.isEmpty_iff, hash_ne_nil p]
    · have hpid := dbLookup_payload_id hlook
      simp [hpid, List.isEmpty_iff, hash_ne_nil p]

theorem createSeq_after {p : Payload} (n : Nat) (s : SysState)
    (h : calculate_payload_hash p ∈ s.redisCachedIds) :
    (∀ o ∈ createSeq p n s, o = ⟨.ok (calculate_payload_hash p), s, 0, 0⟩) := by
  induction n generalizing s with
  | zero => intro o ho; simp [createSeq] at ho
  | succ n ih =>
      intro o ho
      rw [createSeq, create_hit h] at ho
      rcases List.mem_cons.mp ho with rfl | ho
      · rfl
      · exact ih s h o ho

/-- C1: (i) a fast-path registry hit returns the existing identifier
immediately — unchanged state, no Transformer call, no store call; (ii) the
Transformer only ever runs on a call that missed both the registry and the
store; (iii) for a valid payload, N sequential Create calls all return the
same identifier while the Transformer runs at most once in total. -/
theorem claim_C1 :
    (∀ (s : SysState) (p : Payload), calculate_payload_hash p ∈ s.redisCachedIds →
        create_payload s p = ⟨.ok (calculate_payload_hash p), s, 0, 0⟩) ∧
    (∀ (s : SysState) (p : Payload), 1 ≤ (create_payload s p).transformerCalls →
        calculate_payload_hash p ∉ s.redisCachedIds ∧
          dbLookup s.db (calculate_payload_hash p) = none) ∧
    (∀ (s : SysState) (p : Payload) (out : Str) (n : Nat), transformP p = .ok out →
        (∀ o ∈ createSeq p n s, o.result = .ok (calculate_payload_hash p)) ∧
          ((createSeq p n s).map (·.transformerCalls)).sum ≤ 1) := by
  refine ⟨fun s p h => create_hit h, fun s p h => ?_, fun s p out n htr => ?_⟩
  · by_cases hin : calculate_payload_hash p ∈ s.redisCachedIds
    · rw [create_hit hin] at h
      exact absurd h (by norm_num)
    · refine ⟨hin, ?_⟩
      rcases hlook : dbLookup s.db (calculate_payload_hash p) with _ | row
      · rfl
      · rw [create_payload, create_payload_race, if_neg hin, CacheController.create,
          CacheController.getCachedResponseId, hlook] at h
        exact absurd h (by norm_num)
  · cases n with
    | zero => exact ⟨by simp [createSeq], by simp [createSeq]⟩
    | succ n =>
        obtain ⟨hres, hmem, hcalls⟩ := @create_ok s p out htr
        have hafter := createSeq_after n (create_payload s p).state hmem
        constructor
        · intro o ho
          rw [createSeq] at ho
          rcases List.mem_cons.mp ho with rfl | ho
          · exact hres
          · rw [hafter o ho]
        · rw [createSeq, List.map_cons, List.sum_cons]
          have hz : ((createSeq p n (create_payload s p).state).map
              (·.transformerCalls)).sum = 0 := by
            rw [List.sum_eq_zero]
            intro x hx
            rw [List.mem_map] at hx
            obtain ⟨o, ho, rfl⟩ := hx
            rw [hafter o ho]
          omega

set_option maxRecDepth 40000 in
/-- C1 witness: the three clauses of `claim_C1` at concrete inputs — clause
(i) at a state whose registry already holds the identifier of
(["hello"], ["world"]); clauses (ii) and (iii) at the empty state with three
sequential calls. -/
theorem claim_C1_witness :
    create_payload
        ⟨[calculate_payload_hash ⟨["hello".data], ["world".data]⟩], [], []⟩
        ⟨["hello".data], ["world".data]⟩ =
      ⟨.ok (calculate_payload_hash ⟨["hello".data], ["world".data]⟩),
        ⟨[calculate_payload_hash ⟨["hello".data], ["world".data]⟩], [], []⟩, 0, 0⟩ ∧
    (calculate_payload_hash ⟨["hello".data], ["world".data]⟩ ∉
        (⟨[], [], []⟩ : SysState).redisCachedIds ∧
      dbLookup (⟨[], [], []⟩ : SysState).db
        (calculate_payload_hash ⟨["hello".data], ["world".data]⟩) = none) ∧
    ((∀ o ∈ createSeq ⟨["hello".data], ["world".data]⟩ 3 ⟨[], [], []⟩,
        o.result = .ok (calculate_payload_hash ⟨["hello".data], ["world".data]⟩)) ∧
      ((createSeq ⟨["hello".data], ["world".data]⟩ 3 ⟨[], [], []⟩).map
        (·.transformerCalls)).sum ≤ 1) :=
  ⟨claim_C1.1 _ ⟨["hello".data], ["world".data]⟩ (by simp),
    claim_C1.2.1 ⟨[], [], []⟩ ⟨["hello".data], ["world".data]⟩ (by decide),
    claim_C1.2.2 ⟨[], [], []⟩ ⟨["hello".data], ["world".data]⟩ "HELLO, WORLD".data 3
      (by decide)⟩

set_option maxRecDepth 40000 in
/-- C4 counterexample: a Create that misses registry and store, computes the
output, and then loses the duplicate-write race (the store already holds a
row for the identifier when the put runs) does NOT return the identifier as a
cache hit: the re-raised store rejection surfaces to the caller as an HTTP
500 "Internal Server Error". -/
theorem claim_C4_counterexample :
    (create_payload_race ⟨[], [], []⟩
        [⟨calculate_payload_hash pHello, jsonDumpsPayload pHello,
          jsonDumpsOutput "HELLO, WORLD".data⟩] pHello).result =
      .error ⟨500, "Internal Server Error".data⟩ ∧
    (create_payload_race ⟨[], [], []⟩
        [⟨calculate_payload_hash pHello, jsonDumpsPayload pHello,
          jsonDumpsOutput "HELLO, WORLD".data⟩] pHello).result ≠
      .ok (calculate_payload_hash pHello) := by
  constructor <;> decide

/-- C4 as amended: when Create loses the duplicate-write race — the lookup
missed but the store holds a row for the identifier by the time the put runs
— the store's rejection is rolled back and re-raised, and `exception_handler`
surfaces it as an HTTP 500 "Internal Server Error"; the identifier is not
added to the fast-path registry.  (The conflict is NOT absorbed as a cache
hit.) -/
theorem claim_C4 (s : SysState) (dbAtPut : DB) (p : Payload) (out : Str)
    (hreg : calculate_payload_hash p ∉ s.redisCachedIds)
    (hmiss : dbLookup s.db (calculate_payload_hash p) = none)
    (htr : transformP p = .ok out)
    (hconf : (dbLookup dbAtPut (calculate_payload_hash p)).isSome = true) :
    create_payload_race s dbAtPut p =
      ⟨.error ⟨500, "Internal Server Error".data⟩, { s with db := dbAtPut }, 1, 2⟩ := by
  rw [create_payload_race, if_neg hreg, CacheController.create,
    CacheController.getCachedResponseId, hmiss, htr]
  simp [CacheController.cacheParsedResponse, hconf]

set_option maxRecDepth 40000 in
/-- C4 witness: `claim_C4` at the empty state, a store that already holds the
(["hello"], ["world"]) row, and that payload. -/
theorem claim_C4_witness :
    create_payload_race ⟨[], [], []⟩
        [⟨calculate_payload_hash pHello, jsonDumpsPayload pHello,
          jsonDumpsOutput "HELLO, WORLD".data⟩] pHello =
      ⟨.error ⟨500, "Internal Server Error".data⟩,
        { redisCachedIds := [], redisOutputCache := [],
          db := [⟨calculate_payload_hash pHello, jsonDumpsPayload pHello,
            jsonDumpsOutput "HELLO, WORLD".data⟩] }, 1, 2⟩ :=
  claim_C4 ⟨[], [], []⟩
    [⟨calculate_payload_hash pHello, jsonDumpsPayload pHello,
      jsonDumpsOutput "HELLO, WORLD".data⟩] pHello "HELLO, WORLD".data
    (by decide) (by decide) (by decide) (by decide)

/-! ## Round-trip of the stored JSON text -/

theorem char_toNat_inj {a b : Char} (h : a.toNat = b.toNat) : a = b := by
  rw [← Char.ofNat_toNat a, h, Char.ofNat_toNat]

theorem hexVal_hexDigitChar : ∀ k < 16, hexVal (hexDigitChar k) = some k := by decide

theorem hex4Val_hex4 {n : Nat} (h : n < 65536) :
    hex4Val (hexDigitChar (n / 4096 % 16)) (hexDigitChar (n / 256 % 16))
      (hexDigitChar (n / 16 % 16)) (hexDigitChar (n % 16)) = some n := by
  rw [hex4Val, hexVal_hexDigitChar _ (by omega), hexVal_hexDigitChar _ (by omega),
    hexVal_hexDigitChar _ (by omega), hexVal_hexDigitChar _ (by omega)]
  have h4 : 4096 * (n / 4096 % 16) + 256 * (n / 256 % 16) + 16 * (n / 16 % 16) + n % 16 = n := by
    omega
  dsimp only
  rw [h4]

theorem junit_quote (rest : Str) : jsonUnit ('"' :: rest) = some (none, rest) := by
  simp [jsonUnit]

theorem junit_plain {c : Char} (h1 : c ≠ '"') (h2 : c ≠ '\\')
    (h3 : ¬c.toNat < 0x20) (rest : Str) :
    jsonUnit (c :: rest) = some (some c, rest) := by
  simp [jsonUnit, h1, h2, h3]

theorem junit_escape {e ec : Char} (he : escChar e = some ec) (hu : e ≠ 'u')
    (rest : Str) :
    jsonUnit ('\\' :: e :: rest) = some (some ec, rest) := by
  simp [jsonUnit, hu, he]

theorem junit_u {n : Nat} (hlt : n < 65536) (hlo : ¬(0xD800 ≤ n ∧ n ≤ 0xDBFF))
    (hhi : ¬(0xDC00 ≤ n ∧ n ≤ 0xDFFF)) (rest : Str) :
    jsonUnit ('\\' :: 'u' :: hex4 n ++ rest) = some (some (Char.ofNat n), rest) := by
  show jsonUnit ('\\' :: 'u' :: hexDigitChar (n / 4096 % 16) :: hexDigitChar (n / 256 % 16) ::
    hexDigitChar (n / 16 % 16) :: hexDigitChar (n % 16) :: rest) = _
  rw [jsonUnit]
  simp only [if_neg (show ('\\' : Char) ≠ '"' by decide), if_pos rfl]
  simp only [if_pos rfl, hex4Val_hex4 hlt, hlo, hhi, if_neg, if_false]
  simp

theorem junit_surrogate {n : Nat} (hge : 0x10000 ≤ n) (hlt : n < 0x110000)
    (rest : Str) :
    jsonUnit ('\\' :: 'u' :: hex4 (0xD800 + (n - 0x10000) / 0x400) ++
        ('\\' :: 'u' :: hex4 (0xDC00 + (n - 0x10000) % 0x400) ++ rest)) =
      some (some (Char.ofNat n), rest) := by
  have h1 : 0xD800 + (n - 0x10000) / 0x400 < 65536 := by omega
  have h2 : 0xDC00 + (n - 0x10000) % 0x400 < 65536 := by omega
  show jsonUnit ('\\' :: 'u' ::
      hexDigitChar ((0xD800 + (n - 0x10000) / 0x400) / 4096 % 16) ::
      hexDigitChar ((0xD800 + (n - 0x10000) / 0x400) / 256 % 16) ::
      hexDigitChar ((0xD800 + (n - 0x10000) / 0x400) / 16 % 16) ::
      hexDigitChar ((0xD800 + (n - 0x10000) / 0x400) % 16) :: '\\' :: 'u' ::
      hexDigitChar ((0xDC00 + (n - 0x10000) % 0x400) / 4096 % 16) ::
      hexDigitChar ((0xDC00 + (n - 0x10000) % 0x400) / 256 % 16) ::
      hexDigitChar ((0xDC00 + (n - 0x10000) % 0x400) / 16 % 16) ::
      hexDigitChar ((0xDC00 + (n - 0x10000) % 0x400) % 16) :: rest) = _
  rw [jsonUnit]
  simp only [if_neg (show ('\\' : Char) ≠ '"' by decide), if_pos rfl]
  simp only [if_pos rfl, hex4Val_hex4 h1, hex4Val_hex4 h2]
  have hhi : 0xD800 ≤ 0xD800 + (n - 0x10000) / 0x400 ∧
      0xD800 + (n - 0x10000) / 0x400 ≤ 0xDBFF := by omega
  have hlo : 0xDC00 ≤ 0xDC00 + (n - 0x10000) % 0x400 ∧
      0xDC00 + (n - 0x10000) % 0x400 ≤ 0xDFFF := by omega
  simp only [if_pos hhi, if_pos (show ('\\' : Char) = '\\' ∧ ('u' : Char) = 'u' by decide),
    if_pos hlo]
  have hn : 0x10000 + (0xD800 + (n - 0x10000) / 0x400 - 0xD800) * 0x400 +
      (0xDC00 + (n - 0x10000) % 0x400 - 0xDC00) = n := by omega
  rw [hn]
  simp

theorem junit_encodeJsonChar (c : Char) (rest : Str) :
    jsonUnit (encodeJsonChar c ++ rest) = some (some c, rest) := by
  have hv : c.toNat < 0xd800 ∨ (0xdfff < c.toNat ∧ c.toNat < 0x110000) := c.valid
  rw [encodeJsonChar]
  by_cases h34 : c.toNat = 34
  · have hc : c = '"' := char_toNat_inj (show c.toNat = Char.toNat '"' by rw [h34]; rfl)
    rw [if_pos h34, hc]
    exact junit_escape (by decide) (by decide) rest
  rw [if_neg h34]
  by_cases h92 : c.toNat = 92
  · have hc : c = '\\' := char_toNat_inj (show c.toNat = Char.toNat '\\' by rw [h92]; rfl)
    rw [if_pos h92, hc]
    exact junit_escape (by decide) (by decide) rest
  rw [if_neg h92]
  by_cases h8 : c.toNat = 8
  · have hc : c = Char.ofNat 8 := char_toNat_inj (by rw [h8]; rfl)
    rw [if_pos h8, hc]
    exact junit_escape (by decide) (by decide) rest
  rw [if_neg h8]
  by_cases h12 : c.toNat = 12
  · have hc : c = Char.ofNat 12 := char_toNat_inj (by rw [h12]; rfl)
    rw [if_pos h12, hc]
    exact junit_escape (by decide) (by decide) rest
  rw [if_neg h12]
  by_cases h10 : c.toNat = 10
  · have hc : c = '\n' := char_toNat_inj (show c.toNat = Char.toNat '\n' by rw [h10]; rfl)
    rw [if_pos h10, hc]
    exact junit_escape (by decide) (by decide) rest
  rw [if_neg h10]
  by_cases h13 : c.toNat = 13
  · have hc : c = '\r' := char_toNat_inj (show c.toNat = Char.toNat '\r' by rw [h13]; rfl)
    rw [if_pos h13, hc]
    exact junit_escape (by decide) (by decide) rest
  rw [if_neg h13]
  by_cases h9 : c.toNat = 9
  · have hc : c = '\t' := char_toNat_inj (show c.toNat = Char.toNat '\t' by rw [h9]; rfl)
    rw [if_pos h9, hc]
    exact junit_escape (by decide) (by decide) rest
  rw [if_neg h9]
  by_cases hprint : 0x20 ≤ c.toNat ∧ c.toNat ≤ 0x7E
  · rw [if_pos hprint, List.cons_append, List.nil_append]
    refine junit_plain ?_ ?_ (by omega) rest
    · exact fun h => h34 (by rw [h]; rfl)
    · exact fun h => h92 (by rw [h]; rfl)
  rw [if_neg hprint]
  by_cases hbmp : c.toNat < 0x10000
  · rw [if_pos hbmp]
    have hres := junit_u hbmp (by rcases hv with h | h <;> omega)
      (by rcases hv with h | h <;> omega) rest
    rw [Char.ofNat_toNat] at hres
    simpa using hres
  · rw [if_neg hbmp]
    have hge : 0x10000 ≤ c.toNat := by omega
    have hlt : c.toNat < 0x110000 := by rcases hv with h | h <;> omega
    have hres := junit_surrogate hge hlt rest
    rw [Char.ofNat_toNat] at hres
    dsimp only
    simpa using hres

theorem encodeJsonChar_length_pos (c : Char) : 1 ≤ (encodeJsonChar c).length := by
  rw [encodeJsonChar]
  split_ifs <;> simp [hex4]

theorem parse_encBody (s : Str) : ∀ (tail : Str) (fuel : Nat),
    ((s.map encodeJsonChar).flatten ++ '"' :: tail).length ≤ fuel →
    parseJsonStrAux fuel ((s.map encodeJsonChar).flatten ++ '"' :: tail) =
      some (s, tail) := by
  induction s with
  | nil =>
      intro tail fuel hf
      simp only [List.map_nil, List.flatten_nil, List.nil_append] at hf ⊢
      cases fuel with
      | zero => simp at hf
      | succ f => rw [parseJsonStrAux, junit_quote]
  | cons c s' ih =>
      intro tail fuel hf
      simp only [List.map_cons, List.flatten_cons, List.append_assoc] at hf ⊢
      have hle := encodeJsonChar_length_pos c
      cases fuel with
      | zero => simp [List.length_append] at hf
      | succ f =>
          rw [parseJsonStrAux, junit_encodeJsonChar]
          have hrest : ((s'.map encodeJsonChar).flatten ++ '"' :: tail).length ≤ f := by
            simp [List.length_append] at hf ⊢
            omega
          dsimp only
          rw [ih tail f hrest]
          rfl

theorem jsonLoads_jsonDumps (out : Str) :
    jsonLoadsOutput (jsonDumpsOutput out) = some out := by
  have hshape : jsonDumpsOutput out =
      "\x7b\"output\": \"".data ++ ((out.map encodeJsonChar).flatten ++ '"' :: ['}']) := by
    rw [jsonDumpsOutput, encodeJsonString]
    simp
  have hpref : beginsWith "\x7b\"output\": \"".data
      ("\x7b\"output\": \"".data ++ ((out.map encodeJsonChar).flatten ++ '"' :: ['}'])) = true :=
    beginsWith_iff.mpr ⟨_, rfl⟩
  have hlen : ("\x7b\"output\": \"".data).length = 12 := rfl
  rw [hshape, jsonLoadsOutput, if_pos hpref, ← hlen, List.drop_left,
    parse_encBody out ['}'] _ le_rfl]
  rfl

theorem dbLookup_append_self {db : DB} {id : Str} (h : dbLookup db id = none)
    (row : DbRow) (hrow : row.payload_id = id) :
    dbLookup (db ++ [row]) id = some row := by
  rw [dbLookup, List.find?_append]
  rw [dbLookup] at h
  rw [h]
  simp [List.find?, hrow]

theorem read_gives {s : SysState} {id out : Str} (hid : id ≠ [])
    (hcache : ∀ o, lookupAssoc s.redisOutputCache id = some o → o = out)
    (hdb : ∀ row, dbLookup s.db id = some row → row.output_payload = jsonDumpsOutput out)
    (hsome : (dbLookup s.db id).isSome = true ∨
      (lookupAssoc s.redisOutputCache id).isSome = true) :
    (read_payload s id).1 = .ok out := by
  have hemp : id.isEmpty = false := by simpa [List.isEmpty_iff] using hid
  rw [read_payload, CacheController.get, hemp]
  rcases hoc : lookupAssoc s.redisOutputCache id with _ | o
  · rcases hdbl : dbLookup s.db id with _ | row
    · exfalso
      rcases hsome with h | h
      · rw [hdbl] at h
        simp at h
      · rw [hoc] at h
        simp at h
    · have hrow := hdb row hdbl
      simp [hrow, jsonLoads_jsonDumps]
  · have ho := hcache o hoc
    subst ho
    simp

theorem create_miss {s : SysState} {p : Payload} {out : Str}
    (hin : calculate_payload_hash p ∉ s.redisCachedIds)
    (hlook : dbLookup s.db (calculate_payload_hash p) = none)
    (htr : transformP p = .ok out) :
    create_payload s p =
      ⟨.ok (calculate_payload_hash p),
        { s with
          redisCachedIds := calculate_payload_hash p :: s.redisCachedIds,
          db := s.db ++ [⟨calculate_payload_hash p, jsonDumpsPayload p,
            jsonDumpsOutput out⟩] }, 1, 2⟩ := by
  rw [create_payload, create_payload_race, if_neg hin, CacheController.create,
    CacheController.getCachedResponseId, hlook, htr]
  simp [CacheController.cacheParsedResponse, hlook, List.isEmpty_iff, hash_ne_nil p]

theorem create_dbhit {s : SysState} {p : Payload} {row : DbRow}
    (hin : calculate_payload_hash p ∉ s.redisCachedIds)
    (hlook : dbLookup s.db (calculate_payload_hash p) = some row) :
    create_payload s p =
      ⟨.ok (calculate_payload_hash p),
        { s with redisCachedIds := calculate_payload_hash p :: s.redisCachedIds },
        0, 1⟩ := by
  have hpid := dbLookup_payload_id hlook
  rw [create_payload, create_payload_race, if_neg hin, CacheController.create,
    CacheController.getCachedResponseId, hlook]
  simp [hpid, List.isEmpty_iff, hash_ne_nil p]

/-- C2: read after create, under cache consistency for the payload: Create
succeeds with the payload's content hash as identifier, and a subsequent
Read of that identifier returns exactly the Transformer's output — the
stored output round-trips unchanged through the JSON serialization into the
store and back out. -/
theorem claim_C2 (s : SysState) (p : Payload) (out : Str)
    (htr : transformP p = .ok out) (hcons : ConsistentFor s p out) :
    (create_payload s p).result = .ok (calculate_payload_hash p) ∧
      (read_payload (create_payload s p).state (calculate_payload_hash p)).1 = .ok out := by
  obtain ⟨hcache, hdbc, hreg⟩ := hcons
  refine ⟨(create_ok htr).1, ?_⟩
  by_cases hin : calculate_payload_hash p ∈ s.redisCachedIds
  · rw [create_hit hin]
    exact read_gives (hash_ne_nil p) hcache hdbc (hreg hin)
  · rcases hlook : dbLookup s.db (calculate_payload_hash p) with _ | row
    · rw [create_miss hin hlook htr]
      dsimp only
      refine read_gives (hash_ne_nil p) ?_ ?_ ?_
      · exact hcache
      · intro r hr
        rw [show dbLookup
            ({ s with
              redisCachedIds := calculate_payload_hash p :: s.redisCachedIds,
              db := s.db ++ [⟨calculate_payload_hash p, jsonDumpsPayload p,
                jsonDumpsOutput out⟩] } : SysState).db (calculate_payload_hash p) =
            some ⟨calculate_payload_hash p, jsonDumpsPayload p, jsonDumpsOutput out⟩
          from dbLookup_append_self hlook _ rfl] at hr
        cases hr
        rfl
      · left
        rw [show dbLookup
            ({ s with
              redisCachedIds := calculate_payload_hash p :: s.redisCachedIds,
              db := s.db ++ [⟨calculate_payload_hash p, jsonDumpsPayload p,
                jsonDumpsOutput out⟩] } : SysState).db (calculate_payload_hash p) =
            some ⟨calculate_payload_hash p, jsonDumpsPayload p, jsonDumpsOutput out⟩
          from dbLookup_append_self hlook _ rfl]
        rfl
    · rw [create_dbhit hin hlook]
      dsimp only
      refine read_gives (hash_ne_nil p) ?_ ?_ ?_
      · exact hcache
      · exact hdbc
      · left
        exact hlook ▸ rfl

set_option maxRecDepth 40000 in
/-- C2 witness: `claim_C2` at the empty state with the (["hello"], ["world"])
payload. -/
theorem claim_C2_witness :
    (create_payload ⟨[], [], []⟩ pHello).result = .ok (calculate_payload_hash pHello) ∧
      (read_payload (create_payload ⟨[], [], []⟩ pHello).state
        (calculate_payload_hash pHello)).1 = .ok "HELLO, WORLD".data :=
  claim_C2 ⟨[], [], []⟩ pHello "HELLO, WORLD".data (by decide)
    (by refine ⟨?_, ?_, ?_⟩ <;> simp [lookupAssoc, dbLookup])

/-! ## Evaluation of the transformer on large uniform payloads -/

namespace TransformerApp

theorem collapse_eq_self_of_clean {s : Str} (h : ∀ c ∈ s, ¬pyIsSpace c) :
    collapse_whitespace s = s := by
  rw [collapse_whitespace, pyStrip_of_clean h]
  have hsp : (' ' : Char) ∉ s := fun hm => h ' ' hm (by decide)
  refine if_pos ⟨?_, ?_, ?_, ?_⟩
  · simp only [Bool.not_eq_true]
    rw [← Bool.not_eq_true]
    intro hc
    exact hsp (mem_of_containsSub hc (by simp))
  all_goals
    simp only [Bool.not_eq_true]
    rw [← Bool.not_eq_true, containsSub_single]
    intro hc
    exact h _ hc (by decide)

theorem interleave_replicate (n : Nat) (x : Str) :
    interleave (List.replicate n x) (List.replicate n x) = List.replicate (2 * n) x := by
  induction n with
  | zero => rfl
  | succ k ih =>
      rw [List.replicate_succ, interleave, List.zip_cons_cons]
      rw [interleave] at ih
      rw [List.flatMap_cons, ih]
      rw [show 2 * (k + 1) = (2 * k + 1) + 1 by omega, List.replicate_succ,
        List.replicate_succ]
      rfl

theorem joinSep_length_replicate (sep x : Str) (n : Nat) :
    (joinSep sep (List.replicate (n + 1) x)).length = (n + 1) * x.length + n * sep.length := by
  induction n with
  | zero => simp [joinSep]
  | succ k ih =>
      rw [List.replicate_succ, joinSep_cons sep x (by simp), List.length_append,
        List.length_append, ih]
      ring

theorem transform_replicate (n : Nat) (blk : Str)
    (hn : n ≤ MAX_ITEMS) (hlen : blk.length ≤ MAX_ITEM_LENGTH)
    (hclean : ∀ c ∈ blk, ¬pyIsSpace c) :
    transformP ⟨List.replicate n blk, List.replicate n blk⟩ =
      if (joinSep ", ".data (List.replicate (2 * n) blk)).length > MAX_TOTAL_OUTPUT_CHARS
      then .error .outputTooLong
      else .ok (pyUpper (joinSep ", ".data (List.replicate (2 * n) blk))) := by
  have hcol : collapse_whitespace blk = blk := collapse_eq_self_of_clean hclean
  have hitems : ∀ it ∈ List.replicate n blk,
      (collapse_whitespace it).length ≤ MAX_ITEM_LENGTH := by
    intro it hit
    rw [List.eq_of_mem_replicate hit, hcol]
    exact hlen
  have hens : ensureIsSequenceOfStr ((List.replicate n blk).map .str) "list_1".data =
      .ok (List.replicate n blk) := by
    rw [ensureIsSequenceOfStr, if_neg (by simp; omega), extractStrs_map_str]
  have hens2 : ensureIsSequenceOfStr ((List.replicate n blk).map .str) "list_2".data =
      .ok (List.replicate n blk) := by
    rw [ensureIsSequenceOfStr, if_neg (by simp; omega), extractStrs_map_str]
  have hmap : (List.replicate n blk).map collapse_whitespace = List.replicate n blk := by
    rw [List.map_replicate, hcol]
  show transformLists ((List.replicate n blk).map .str) ((List.replicate n blk).map .str) = _
  rw [transformLists, hens, hens2]
  dsimp only
  rw [if_neg (show ¬((List.replicate n blk).length ≠ (List.replicate n blk).length) by simp)]
  rw [normalizeItems_eq_ok "list_1".data 0 hitems, normalizeItems_eq_ok "list_2".data 0 hitems]
  dsimp only
  rw [hmap, interleave_replicate]

end TransformerApp

theorem pyUpper_append (a b : Str) : pyUpper (a ++ b) = pyUpper a ++ pyUpper b := by
  simp [pyUpper]

theorem pyUpper_joinSep (sep : Str) (ws : List Str) :
    pyUpper (joinSep sep ws) = joinSep (pyUpper sep) (ws.map pyUpper) := by
  induction ws with
  | nil => rfl
  | cons w vs ih =>
      cases vs with
      | nil => rfl
      | cons v us =>
          rw [joinSep_cons sep w (by simp), pyUpper_append, pyUpper_append, ih]
          simp only [List.map_cons]
          rw [joinSep_cons (pyUpper sep) (pyUpper w) (by simp)]

theorem pyUpper_replicate_length (n : Nat) (c : Char) :
    (pyUpper (List.replicate n c)).length = n * (pyUpperChar c).length := by
  rw [pyUpper, List.map_replicate, List.length_flatten]
  simp [Nat.mul_comm]

theorem blkSS_length : blkSS.length = 8192 := by
  rw [blkSS, List.length_replicate]

theorem joinedSS_length : joinedSS.length = 4998338 := by
  have hsep : (", ".data).length = 2 := rfl
  rw [joinedSS, show (610 : Nat) = 609 + 1 by norm_num,
    TransformerApp.joinSep_length_replicate, blkSS_length, hsep]

theorem transformP_pSS : transformP pSS = .ok (pyUpper joinedSS) := by
  have h := TransformerApp.transform_replicate 305 blkSS
    (by rw [TransformerApp.MAX_ITEMS]; omega)
    (by rw [blkSS_length, TransformerApp.MAX_ITEM_LENGTH])
    (by intro c hc
        rw [blkSS] at hc
        rw [List.eq_of_mem_replicate hc]
        decide)
  have hps : pSS = ⟨List.replicate 305 blkSS, List.replicate 305 blkSS⟩ := rfl
  rw [hps, h, show 2 * 305 = 610 by norm_num, ← joinedSS,
    if_neg (by rw [joinedSS_length, TransformerApp.MAX_TOTAL_OUTPUT_CHARS]; omega)]

theorem pyUpper_joinedSS_length : (pyUpper joinedSS).length = 9995458 := by
  have hc : (pyUpperChar 'ß').length = 2 := by decide
  have hsep : (pyUpper ", ".data).length = 2 := by decide
  rw [joinedSS, pyUpper_joinSep, List.map_replicate,
    show (610 : Nat) = 609 + 1 by norm_num, TransformerApp.joinSep_length_replicate,
    blkSS, pyUpper_replicate_length, hc, hsep]

/-- C8 counterexample: transform succeeds on the payload of 2 × 305 items of
8192 'ß' each — the pre-uppercase joined string (4,998,338 chars) passes the
cap check — yet the returned upper-cased output has 9,995,458 characters,
exceeding MAX_TOTAL_OUTPUT_CHARS = 5,000,000, because Python's `str.upper()`
maps 'ß' to "SS" and the cap is checked before upper-casing. -/
theorem claim_C8_counterexample :
    transformP pSS = .ok (pyUpper joinedSS) ∧
      (pyUpper joinedSS).length = 9995458 ∧
      TransformerApp.MAX_TOTAL_OUTPUT_CHARS < (pyUpper joinedSS).length :=
  ⟨transformP_pSS, pyUpper_joinedSS_length,
    by rw [pyUpper_joinedSS_length, TransformerApp.MAX_TOTAL_OUTPUT_CHARS]; omega⟩

/-- C8 as amended: the total-output cap is enforced on the joined string
BEFORE upper-casing — on success the output is the upper-casing of the
joined string and the joined (pre-uppercase) string is at most 5,000,000
characters; the final upper-cased output itself may exceed the cap, since
`str.upper()` can lengthen a string (see `claim_C8_counterexample`). -/
theorem claim_C8 (p : Payload) (out : Str) (h : transformP p = .ok out) :
    out = pyUpper (TransformerApp.joinedOf p) ∧
      (TransformerApp.joinedOf p).length ≤ TransformerApp.MAX_TOTAL_OUTPUT_CHARS :=
  TransformerApp.transformP_ok_shape h

/-- C8 witness: `claim_C8` at the (["hello"], ["world"]) payload. -/
theorem claim_C8_witness :
    "HELLO, WORLD".data = pyUpper (TransformerApp.joinedOf pHello) ∧
      (TransformerApp.joinedOf pHello).length ≤ TransformerApp.MAX_TOTAL_OUTPUT_CHARS :=
  claim_C8 pHello "HELLO, WORLD".data (by decide)

namespace TransformerApp

theorem extractStrs_ok_shape {name : Str} {idx : Nat} {vals : List PyVal} {l : List Str}
    (h : extractStrs name idx vals = .ok l) : vals = l.map .str := by
  induction vals generalizing idx l with
  | nil =>
      simp only [extractStrs, Except.ok.injEq] at h
      simp [← h]
  | cons v vs ih =>
      cases v with
      | nonStr => exact absurd h (by simp [extractStrs])
      | str s =>
          rw [extractStrs] at h
          rcases hr : extractStrs name (idx + 1) vs with e | l'
          · rw [hr] at h
            exact absurd h (by simp [Except.map])
          · rw [hr] at h
            simp only [Except.map, Except.ok.injEq] at h
            subst h
            rw [List.map_cons, ← ih hr]

theorem extractStrs_error_nonStr {name : Str} {idx : Nat} {vals : List PyVal}
    {e : TError} (h : extractStrs name idx vals = .error e) : PyVal.nonStr ∈ vals := by
  induction vals generalizing idx e with
  | nil => exact absurd h (by simp [extractStrs])
  | cons v vs ih =>
      cases v with
      | nonStr => simp
      | str s =>
          rw [extractStrs] at h
          rcases hr : extractStrs name (idx + 1) vs with e' | l'
          · exact List.mem_cons_of_mem _ (ih hr)
          · rw [hr] at h
            exact absurd h (by simp [Except.map])

theorem extractStrs_total (name : Str) (idx : Nat) (vals : List PyVal)
    (h : PyVal.nonStr ∉ vals) : ∃ l, extractStrs name idx vals = .ok l := by
  induction vals generalizing idx with
  | nil => exact ⟨[], rfl⟩
  | cons v vs ih =>
      cases v with
      | nonStr => exact absurd (by simp) h
      | str s =>
          obtain ⟨l, hl⟩ := ih (idx + 1) (fun hm => h (List.mem_cons_of_mem _ hm))
          exact ⟨s :: l, by rw [extractStrs, hl]; rfl⟩

theorem normalizeItems_error_item {name : Str} {idx : Nat} {items : List Str}
    {e : TError} (h : normalizeItems name idx items = .error e) :
    ∃ it ∈ items, (collapse_whitespace it).length > MAX_ITEM_LENGTH := by
  induction items generalizing idx e with
  | nil => exact absurd h (by simp [normalizeItems])
  | cons x xs ih =>
      rw [normalizeItems] at h
      rcases hx : normalizeItem x name idx with e' | nx
      · rw [normalizeItem] at hx
        by_cases hlen : (collapse_whitespace x).length > MAX_ITEM_LENGTH
        · exact ⟨x, by simp, hlen⟩
        · simp [hlen] at hx
      · rw [hx] at h
        rcases hr : normalizeItems name (idx + 1) xs with e' | nr
        · obtain ⟨it, hit, hbad⟩ := ih hr
          exact ⟨it, by simp [hit], hbad⟩
        · rw [hr] at h
          exact absurd h (by simp [Except.map])

end TransformerApp

namespace TransformerApp

theorem ensureSeq_ok {v : List PyVal} {name : Str} {l : List Str}
    (h : ensureIsSequenceOfStr v name = .ok l) :
    v = l.map .str ∧ v.length ≤ MAX_ITEMS := by
  rw [ensureIsSequenceOfStr] at h
  by_cases hc : v.length > MAX_ITEMS
  · simp [hc] at h
  · rw [if_neg hc] at h
    exact ⟨extractStrs_ok_shape h, by omega⟩

theorem ensureSeq_error {v : List PyVal} {name : Str} {e : TError}
    (h : ensureIsSequenceOfStr v name = .error e) :
    v.length > MAX_ITEMS ∨ PyVal.nonStr ∈ v := by
  rw [ensureIsSequenceOfStr] at h
  by_cases hc : v.length > MAX_ITEMS
  · exact Or.inl hc
  · rw [if_neg hc] at h
    exact Or.inr (extractStrs_error_nonStr h)

theorem transformLists_error_invalid {v1 v2 : List PyVal} {e : TError}
    (he : transformLists v1 v2 = .error e) :
    listsInvalid v1 v2 ∨ listsOutputTooLong v1 v2 := by
  rw [transformLists] at he
  split at he
  next e1 h1 =>
    rcases ensureSeq_error h1 with h | h
    · exact Or.inl (Or.inl h)
    · exact Or.inl (Or.inr (Or.inr (Or.inl h)))
  next l1 h1 =>
  split at he
  next e2 h2 =>
    rcases ensureSeq_error h2 with h | h
    · exact Or.inl (Or.inr (Or.inl h))
    · exact Or.inl (Or.inr (Or.inr (Or.inr (Or.inl h))))
  next l2 h2 =>
  obtain ⟨hv1, -⟩ := ensureSeq_ok h1
  obtain ⟨hv2, -⟩ := ensureSeq_ok h2
  split at he
  next hne =>
    refine Or.inl (Or.inr (Or.inr (Or.inr (Or.inr (Or.inl ?_)))))
    rw [hv1, hv2]
    simpa using hne
  next hne =>
  split at he
  next e3 h3 =>
    obtain ⟨it, hit, hbad⟩ := normalizeItems_error_item h3
    exact Or.inl (Or.inr (Or.inr (Or.inr (Or.inr (Or.inr (Or.inl
      ⟨it, by rw [hv1]; exact List.mem_map_of_mem _ hit, hbad⟩))))))
  next n1 h3 =>
  split at he
  next e4 h4 =>
    obtain ⟨it, hit, hbad⟩ := normalizeItems_error_item h4
    exact Or.inl (Or.inr (Or.inr (Or.inr (Or.inr (Or.inr (Or.inr
      ⟨it, by rw [hv2]; exact List.mem_map_of_mem _ hit, hbad⟩))))))
  next n2 h4 =>
  obtain ⟨hn1, -⟩ := normalizeItems_ok h3
  obtain ⟨hn2, -⟩ := normalizeItems_ok h4
  dsimp only at he
  split at he
  next hcap =>
    refine Or.inr ⟨l1, l2, hv1, hv2, ?_⟩
    rw [← hn1, ← hn2, show ", ".data = ([',', ' '] : Str) from rfl]
    omega
  next hcap => exact absurd he (by simp)

theorem transformLists_ok_valid {v1 v2 : List PyVal} {out : Str}
    (hok : transformLists v1 v2 = .ok out) :
    ¬(listsInvalid v1 v2 ∨ listsOutputTooLong v1 v2) := by
  rw [transformLists] at hok
  split at hok
  · exact absurd hok (by simp)
  next l1 h1 =>
  split at hok
  · exact absurd hok (by simp)
  next l2 h2 =>
  obtain ⟨hv1, hc1⟩ := ensureSeq_ok h1
  obtain ⟨hv2, hc2⟩ := ensureSeq_ok h2
  split at hok
  · exact absurd hok (by simp)
  next hne =>
  split at hok
  · exact absurd hok (by simp)
  next n1 h3 =>
  split at hok
  · exact absurd hok (by simp)
  next n2 h4 =>
  obtain ⟨hn1, hb1⟩ := normalizeItems_ok h3
  obtain ⟨hn2, hb2⟩ := normalizeItems_ok h4
  dsimp only at hok
  split at hok
  next hcap => exact absurd hok (by simp)
  next hcap =>
  rintro (hinv | hlong)
  · rcases hinv with h | h | h | h | h | ⟨s, hs, hbad⟩ | ⟨s, hs, hbad⟩
    · omega
    · omega
    · rw [hv1] at h
      simp at h
    · rw [hv2] at h
      simp at h
    · subst hv1; subst hv2
      simp at h
      exact absurd h hne
    · rw [hv1] at hs
      obtain ⟨t, ht, heq⟩ := List.mem_map.mp hs
      have ht2 : t = s := by injection heq
      subst ht2
      exact absurd hbad (by have := hb1 t ht; omega)
    · rw [hv2] at hs
      obtain ⟨t, ht, heq⟩ := List.mem_map.mp hs
      have ht2 : t = s := by injection heq
      subst ht2
      exact absurd hbad (by have := hb2 t ht; omega)
  · obtain ⟨l1', l2', he1, he2, hbig⟩ := hlong
    have hinj : Function.Injective PyVal.str := fun a b h => by cases h; rfl
    have hl1 : l1' = l1 := List.map_injective_iff.mpr hinj (by rw [← he1, hv1])
    have hl2 : l2' = l2 := List.map_injective_iff.mpr hinj (by rw [← he2, hv2])
    subst hl1; subst hl2
    rw [← hn1, ← hn2, show ", ".data = ([',', ' '] : Str) from rfl] at hbig
    omega

theorem transform_error_iff (payload : Option RawPayload) :
    (∃ e, transform payload = .error e) ↔ amendedInvalidConditions payload := by
  cases payload with
  | none => simp [transform, amendedInvalidConditions]
  | some p =>
      rcases hp : p with ⟨l1o, l2o⟩
      rcases l1o with _ | v1 <;> rcases l2o with _ | v2 <;>
        simp only [transform, amendedInvalidConditions]
      · simp
      · simp
      · simp
      · constructor
        · rintro ⟨e, he⟩
          exact transformLists_error_invalid he
        · intro h
          rcases hres : transformLists v1 v2 with e | out
          · exact ⟨e, rfl⟩
          · exact absurd h (transformLists_ok_valid hres)

end TransformerApp

theorem blkA_clean : ∀ c ∈ blkA, ¬pyIsSpace c := by
  intro c hc
  rw [blkA] at hc
  rw [List.eq_of_mem_replicate hc]
  decide

theorem transformP_pAA : transformP pAA = .error .outputTooLong := by
  have h := TransformerApp.transform_replicate 306 blkA
    (by rw [TransformerApp.MAX_ITEMS]; omega)
    (by rw [blkA, List.length_replicate, TransformerApp.MAX_ITEM_LENGTH])
    blkA_clean
  have hps : pAA = ⟨List.replicate 306 blkA, List.replicate 306 blkA⟩ := rfl
  have hlen : (joinSep ", ".data (List.replicate (2 * 306) blkA)).length = 5014726 := by
    have hsep : (", ".data).length = 2 := rfl
    rw [show 2 * 306 = 611 + 1 by norm_num, TransformerApp.joinSep_length_replicate,
      blkA, List.length_replicate, hsep]
  rw [hps, h, if_pos (by rw [hlen, TransformerApp.MAX_TOTAL_OUTPUT_CHARS]; omega)]

theorem not_listed_pAA :
    ¬TransformerApp.listedInvalidConditions
      (some ⟨some ((List.replicate 306 blkA).map .str),
             some ((List.replicate 306 blkA).map .str)⟩) := by
  have hcol : TransformerApp.collapse_whitespace blkA = blkA :=
    TransformerApp.collapse_eq_self_of_clean blkA_clean
  simp only [TransformerApp.listedInvalidConditions, TransformerApp.listsInvalid]
  rintro (h | h | h | h | h | ⟨s, hs, hbad⟩ | ⟨s, hs, hbad⟩)
  · rw [List.length_map, List.length_replicate, TransformerApp.MAX_ITEMS] at h
    omega
  · rw [List.length_map, List.length_replicate, TransformerApp.MAX_ITEMS] at h
    omega
  · obtain ⟨t, -, heq⟩ := List.mem_map.mp h
    exact TransformerApp.PyVal.noConfusion heq
  · obtain ⟨t, -, heq⟩ := List.mem_map.mp h
    exact TransformerApp.PyVal.noConfusion heq
  · exact h rfl
  all_goals
  · obtain ⟨t, ht, heq⟩ := List.mem_map.mp hs
    have ht2 : t = s := by injection heq
    rw [List.eq_of_mem_replicate ht] at ht2
    rw [← ht2, hcol, blkA, List.length_replicate, TransformerApp.MAX_ITEM_LENGTH] at hbad
    omega

/-- C5 counterexample: a payload satisfying none of C5's enumerated
conditions — 306 all-string items per list, equal lengths, every normalized
item exactly at the 8192 cap, counts within the cap — on which transform
nevertheless fails (with the total-output-cap `ValueError`).  C5's "exactly
when" is therefore false as stated. -/
theorem claim_C5_counterexample :
    transformP pAA = .error .outputTooLong ∧
      ¬TransformerApp.listedInvalidConditions
        (some ⟨some ((List.replicate 306 blkA).map .str),
               some ((List.replicate 306 blkA).map .str)⟩) :=
  ⟨transformP_pAA, not_listed_pAA⟩

/-- C5 as amended: transform fails (with a `ValueError`) exactly when the
input is invalid in the enumerated sense — a list is missing (or the payload
is absent), lengths differ, an element is not a plain string, a normalized
element exceeds MAX_ITEM_LENGTH, a list exceeds MAX_ITEMS — OR the joined
pre-uppercase output exceeds MAX_TOTAL_OUTPUT_CHARS (the condition the
enumeration omitted); in particular (["a","b"], ["x"]) is rejected with the
length-mismatch error. -/
theorem claim_C5 :
    (∀ payload, (∃ e, TransformerApp.transform payload = .error e) ↔
        TransformerApp.amendedInvalidConditions payload) ∧
    transformP ⟨["a".data, "b".data], ["x".data]⟩ = .error .lengthMismatch :=
  ⟨TransformerApp.transform_error_iff, by decide⟩
